import Mathlib

/-
Verification of the page-replacement simulation engine in src/virtual.c.

The C file defines, for each of the three policies FIFO, LRU and LFU, a
single-access transition function (process_page_access_POLICY) and a
whole-run fault counter (count_page_faults_POLICY).  The page table is an
array indexed by page number; each entry is a struct PTE.  The frame pool
is an array of frame numbers together with a count; taking a free frame
removes the head and shifts the rest left, which on the modelled prefix is
exactly List.tail.  We embed the page table as a List PTE (length =
table_cnt) and the frame pool as a List Int (length = frame_cnt).
Machine ints are modelled as unbounded Int with the INT_MAX sentinel made
explicit, matching the use of INT_MAX in the victim scans.
-/

/-- One page-table entry, mirroring struct PTE from oslabs.h as used by
src/virtual.c: validity bit, frame number, arrival timestamp, last access
timestamp and reference count. -/
structure PTE where
  is_valid : Bool
  frame_number : Int
  arrival_timestamp : Int
  last_access_timestamp : Int
  reference_count : Int
deriving Repr, DecidableEq

/-- The entry a C read of an out-of-initialisation slot would see in the
callers of the count functions: an all-zero, invalid entry.  Used as the
default of the total list read. -/
def emptyPTE : PTE := ⟨false, 0, 0, 0, 0⟩

/-- Total read of the page table at a page number; in the C code the index
is always within the array, so claims carry an in-range hypothesis. -/
def getPTE (t : List PTE) (n : Nat) : PTE := t.getD n emptyPTE

/-- The C INT_MAX sentinel that initialises the victim-scan minima. -/
def INT_MAX : Int := 2147483647

/-- The victim scan shared by the FIFO and LRU replacement code
(src/virtual.c lines 35-44 and 174-183): walk the table from index 0,
keeping the running minimum of key over valid entries (oldest) and the
index where it was attained (page_to_replace, -1 when never updated).
The strict comparison means the first index attaining the minimum wins. -/
def findVictimAux (key : PTE → Int) : List PTE → Nat → Int → Int → Int × Int
  | [], _, oldest, repl => (oldest, repl)
  | e :: rest, i, oldest, repl =>
    if e.is_valid ∧ key e < oldest then
      findVictimAux key rest (i + 1) (key e) ((i : Int))
    else
      findVictimAux key rest (i + 1) oldest repl

/-- FIFO victim scan: minimise arrival_timestamp (src/virtual.c 35-44). -/
def findVictimFifo (t : List PTE) : Int × Int :=
  findVictimAux (fun e => e.arrival_timestamp) t 0 INT_MAX (-1)

/-- LRU victim scan: minimise last_access_timestamp (src/virtual.c 174-183). -/
def findVictimLru (t : List PTE) : Int × Int :=
  findVictimAux (fun e => e.last_access_timestamp) t 0 INT_MAX (-1)

/-- The LFU victim scan (src/virtual.c 313-330): minimise reference_count,
breaking ties by smaller arrival_timestamp; the running state is
(min_ref_count, oldest_timestamp, page_to_replace). -/
def findVictimLfuAux : List PTE → Nat → Int → Int → Int → Int × Int × Int
  | [], _, minRc, oldest, repl => (minRc, oldest, repl)
  | e :: rest, i, minRc, oldest, repl =>
    if e.is_valid then
      if e.reference_count < minRc then
        findVictimLfuAux rest (i + 1) e.reference_count e.arrival_timestamp ((i : Int))
      else if e.reference_count = minRc ∧ e.arrival_timestamp < oldest then
        findVictimLfuAux rest (i + 1) minRc e.arrival_timestamp ((i : Int))
      else
        findVictimLfuAux rest (i + 1) minRc oldest repl
    else
      findVictimLfuAux rest (i + 1) minRc oldest repl

/-- LFU victim scan from the top of the table. -/
def findVictimLfu (t : List PTE) : Int × Int × Int :=
  findVictimLfuAux t 0 INT_MAX INT_MAX (-1)

/-- Embedding of process_page_access_fifo (src/virtual.c 5-67).  Returns
the frame number the access resolves to together with the updated page
table and frame pool (the C function mutates these through pointers). -/
def processPageAccessFifo (page_table : List PTE) (page_number : Nat)
    (frame_pool : List Int) (current_timestamp : Int) :
    Int × List PTE × List Int :=
  let e := getPTE page_table page_number
  if e.is_valid then
    (e.frame_number,
     page_table.set page_number
       ⟨e.is_valid, e.frame_number, e.arrival_timestamp, current_timestamp,
        e.reference_count + 1⟩,
     frame_pool)
  else
    match frame_pool with
    | frame :: rest =>
      (frame,
       page_table.set page_number ⟨true, frame, current_timestamp, current_timestamp, 1⟩,
       rest)
    | [] =>
      let r := findVictimFifo page_table
      if r.2 = -1 then
        (-1, page_table, [])
      else
        let frame := (getPTE page_table r.2.toNat).frame_number
        (frame,
         (page_table.set r.2.toNat ⟨false, -1, -1, -1, -1⟩).set page_number
           ⟨true, frame, current_timestamp, current_timestamp, 1⟩,
         [])

/-- Embedding of process_page_access_lru (src/virtual.c 144-206); identical
to the FIFO transition except that the victim scan minimises
last_access_timestamp. -/
def processPageAccessLru (page_table : List PTE) (page_number : Nat)
    (frame_pool : List Int) (current_timestamp : Int) :
    Int × List PTE × List Int :=
  let e := getPTE page_table page_number
  if e.is_valid then
    (e.frame_number,
     page_table.set page_number
       ⟨e.is_valid, e.frame_number, e.arrival_timestamp, current_timestamp,
        e.reference_count + 1⟩,
     frame_pool)
  else
    match frame_pool with
    | frame :: rest =>
      (frame,
       page_table.set page_number ⟨true, frame, current_timestamp, current_timestamp, 1⟩,
       rest)
    | [] =>
      let r := findVictimLru page_table
      if r.2 = -1 then
        (-1, page_table, [])
      else
        let frame := (getPTE page_table r.2.toNat).frame_number
        (frame,
         (page_table.set r.2.toNat ⟨false, -1, -1, -1, -1⟩).set page_number
           ⟨true, frame, current_timestamp, current_timestamp, 1⟩,
         [])

/-- Embedding of process_page_access_lfu (src/virtual.c 283-353); identical
to the FIFO transition except that the victim scan minimises
reference_count with the arrival-timestamp tie-break. -/
def processPageAccessLfu (page_table : List PTE) (page_number : Nat)
    (frame_pool : List Int) (current_timestamp : Int) :
    Int × List PTE × List Int :=
  let e := getPTE page_table page_number
  if e.is_valid then
    (e.frame_number,
     page_table.set page_number
       ⟨e.is_valid, e.frame_number, e.arrival_timestamp, current_timestamp,
        e.reference_count + 1⟩,
     frame_pool)
  else
    match frame_pool with
    | frame :: rest =>
      (frame,
       page_table.set page_number ⟨true, frame, current_timestamp, current_timestamp, 1⟩,
       rest)
    | [] =>
      let r := findVictimLfu page_table
      if r.2.2 = -1 then
        (-1, page_table, [])
      else
        let frame := (getPTE page_table r.2.2.toNat).frame_number
        (frame,
         (page_table.set r.2.2.toNat ⟨false, -1, -1, -1, -1⟩).set page_number
           ⟨true, frame, current_timestamp, current_timestamp, 1⟩,
         [])

/-- The simulation loop of count_page_faults_fifo (src/virtual.c 85-139),
operating on the local copies: state is (table, pool, remaining references,
current_timestamp, faults); the result records the final faults, table,
pool and timestamp. -/
def countPageFaultsFifoLoop :
    List PTE → List Int → List Nat → Int → Int → Int × List PTE × List Int × Int
  | t, pool, [], ts, faults => (faults, t, pool, ts)
  | t, pool, p :: rest, ts, faults =>
    if (getPTE t p).is_valid = false then
      match pool with
      | frame :: poolRest =>
        countPageFaultsFifoLoop (t.set p ⟨true, frame, ts, ts, 1⟩) poolRest rest
          (ts + 1) (faults + 1)
      | [] =>
        let r := findVictimFifo t
        if r.2 = -1 then
          countPageFaultsFifoLoop t [] rest (ts + 1) (faults + 1)
        else
          countPageFaultsFifoLoop
            ((t.set r.2.toNat ⟨false, -1, -1, -1, -1⟩).set p
              ⟨true, (getPTE t r.2.toNat).frame_number, ts, ts, 1⟩)
            [] rest (ts + 1) (faults + 1)
    else
      countPageFaultsFifoLoop
        (t.set p
          ⟨(getPTE t p).is_valid, (getPTE t p).frame_number,
           (getPTE t p).arrival_timestamp, ts, (getPTE t p).reference_count + 1⟩)
        pool rest (ts + 1) faults

/-- The simulation loop of count_page_faults_lru (src/virtual.c 224-278). -/
def countPageFaultsLruLoop :
    List PTE → List Int → List Nat → Int → Int → Int × List PTE × List Int × Int
  | t, pool, [], ts, faults => (faults, t, pool, ts)
  | t, pool, p :: rest, ts, faults =>
    if (getPTE t p).is_valid = false then
      match pool with
      | frame :: poolRest =>
        countPageFaultsLruLoop (t.set p ⟨true, frame, ts, ts, 1⟩) poolRest rest
          (ts + 1) (faults + 1)
      | [] =>
        let r := findVictimLru t
        if r.2 = -1 then
          countPageFaultsLruLoop t [] rest (ts + 1) (faults + 1)
        else
          countPageFaultsLruLoop
            ((t.set r.2.toNat ⟨false, -1, -1, -1, -1⟩).set p
              ⟨true, (getPTE t r.2.toNat).frame_number, ts, ts, 1⟩)
            [] rest (ts + 1) (faults + 1)
    else
      countPageFaultsLruLoop
        (t.set p
          ⟨(getPTE t p).is_valid, (getPTE t p).frame_number,
           (getPTE t p).arrival_timestamp, ts, (getPTE t p).reference_count + 1⟩)
        pool rest (ts + 1) faults

/-- The simulation loop of count_page_faults_lfu (src/virtual.c 371-433). -/
def countPageFaultsLfuLoop :
    List PTE → List Int → List Nat → Int → Int → Int × List PTE × List Int × Int
  | t, pool, [], ts, faults => (faults, t, pool, ts)
  | t, pool, p :: rest, ts, faults =>
    if (getPTE t p).is_valid = false then
      match pool with
      | frame :: poolRest =>
        countPageFaultsLfuLoop (t.set p ⟨true, frame, ts, ts, 1⟩) poolRest rest
          (ts + 1) (faults + 1)
      | [] =>
        let r := findVictimLfu t
        if r.2.2 = -1 then
          countPageFaultsLfuLoop t [] rest (ts + 1) (faults + 1)
        else
          countPageFaultsLfuLoop
            ((t.set r.2.2.toNat ⟨false, -1, -1, -1, -1⟩).set p
              ⟨true, (getPTE t r.2.2.toNat).frame_number, ts, ts, 1⟩)
            [] rest (ts + 1) (faults + 1)
    else
      countPageFaultsLfuLoop
        (t.set p
          ⟨(getPTE t p).is_valid, (getPTE t p).frame_number,
           (getPTE t p).arrival_timestamp, ts, (getPTE t p).reference_count + 1⟩)
        pool rest (ts + 1) faults

/-- Embedding of count_page_faults_fifo (src/virtual.c 69-142).  The C
function copies the caller arrays into locals, runs the loop on the locals
with the timestamp starting at 1, and returns the fault count; it never
writes through the caller pointers, so the caller-visible table and pool
after the call, recorded in the second and third components, are the
inputs themselves. -/
def countPageFaultsFifo (page_table : List PTE) (reference_string : List Nat)
    (frame_pool : List Int) : Int × List PTE × List Int :=
  let local_page_table := page_table
  let local_frame_pool := frame_pool
  ((countPageFaultsFifoLoop local_page_table local_frame_pool reference_string 1 0).1,
   page_table, frame_pool)

/-- Embedding of count_page_faults_lru (src/virtual.c 208-281). -/
def countPageFaultsLru (page_table : List PTE) (reference_string : List Nat)
    (frame_pool : List Int) : Int × List PTE × List Int :=
  let local_page_table := page_table
  let local_frame_pool := frame_pool
  ((countPageFaultsLruLoop local_page_table local_frame_pool reference_string 1 0).1,
   page_table, frame_pool)

/-- Embedding of count_page_faults_lfu (src/virtual.c 355-436). -/
def countPageFaultsLfu (page_table : List PTE) (reference_string : List Nat)
    (frame_pool : List Int) : Int × List PTE × List Int :=
  let local_page_table := page_table
  let local_frame_pool := frame_pool
  ((countPageFaultsLfuLoop local_page_table local_frame_pool reference_string 1 0).1,
   page_table, frame_pool)

/-- Reference run built by folding the single-access FIFO transition over
the reference string, counting one fault per access to a page that is not
valid at the time of the access. -/
def runFifo : List PTE → List Int → List Nat → Int → Int × List PTE × List Int
  | t, pool, [], _ => (0, t, pool)
  | t, pool, p :: rest, ts =>
    let s := processPageAccessFifo t p pool ts
    let r := runFifo s.2.1 s.2.2 rest (ts + 1)
    ((if (getPTE t p).is_valid then 0 else 1) + r.1, r.2.1, r.2.2)

/-- Reference run folding the single-access LRU transition. -/
def runLru : List PTE → List Int → List Nat → Int → Int × List PTE × List Int
  | t, pool, [], _ => (0, t, pool)
  | t, pool, p :: rest, ts =>
    let s := processPageAccessLru t p pool ts
    let r := runLru s.2.1 s.2.2 rest (ts + 1)
    ((if (getPTE t p).is_valid then 0 else 1) + r.1, r.2.1, r.2.2)

/-- Reference run folding the single-access LFU transition. -/
def runLfu : List PTE → List Int → List Nat → Int → Int × List PTE × List Int
  | t, pool, [], _ => (0, t, pool)
  | t, pool, p :: rest, ts =>
    let s := processPageAccessLfu t p pool ts
    let r := runLfu s.2.1 s.2.2 rest (ts + 1)
    ((if (getPTE t p).is_valid then 0 else 1) + r.1, r.2.1, r.2.2)

/-- No two valid entries of the table hold the same frame number. -/
def DistinctFrames (t : List PTE) : Prop :=
  ∀ i, i < t.length → ∀ j, j < t.length →
    (getPTE t i).is_valid = true → (getPTE t j).is_valid = true → i ≠ j →
      (getPTE t i).frame_number ≠ (getPTE t j).frame_number

/-- The free pool holds pairwise distinct frames, none of which is held by
a valid table entry. -/
def PoolOK (t : List PTE) (pool : List Int) : Prop :=
  pool.Nodup ∧
    ∀ f ∈ pool, ∀ j, j < t.length → (getPTE t j).is_valid = true →
      (getPTE t j).frame_number ≠ f

/-- Number of valid (resident) entries of the table. -/
def residentCount (t : List PTE) : Nat := t.countP (fun e => e.is_valid)

/-- The state invariant of an engine configuration with capacity cap: the
resident frames are pairwise distinct, the free pool is duplicate free and
disjoint from the resident frames, and resident pages plus free frames do
not exceed the capacity. -/
def EngineInv (t : List PTE) (pool : List Int) (cap : Nat) : Prop :=
  DistinctFrames t ∧ PoolOK t pool ∧ residentCount t + pool.length ≤ cap

instance (t : List PTE) : Decidable (DistinctFrames t) := by
  unfold DistinctFrames
  exact Nat.decidableBallLT _ _

instance (t : List PTE) (pool : List Int) : Decidable (PoolOK t pool) := by
  unfold PoolOK; infer_instance

instance (t : List PTE) (pool : List Int) (cap : Nat) : Decidable (EngineInv t pool cap) := by
  unfold EngineInv; infer_instance

lemma getPTE_cons_zero (e : PTE) (l : List PTE) : getPTE (e :: l) 0 = e := rfl

lemma getPTE_cons_succ (e : PTE) (l : List PTE) (k : Nat) :
    getPTE (e :: l) (k + 1) = getPTE l k := rfl

lemma findVictimAux_fst_le (key : PTE → Int) :
    ∀ (l : List PTE) (i : Nat) (oldest repl : Int),
      (findVictimAux key l i oldest repl).1 ≤ oldest := by
  intro l
  induction l with
  | nil => intro i oldest repl; simp [findVictimAux]
  | cons e rest ih =>
    intro i oldest repl
    simp only [findVictimAux]
    split
    next h => exact le_trans (ih (i + 1) (key e) ((i : Int))) (le_of_lt h.2)
    next h => exact ih (i + 1) oldest repl

lemma findVictimAux_fst_le_valid (key : PTE → Int) :
    ∀ (l : List PTE) (i : Nat) (oldest repl : Int) (k : Nat),
      k < l.length → (getPTE l k).is_valid = true →
      (findVictimAux key l i oldest repl).1 ≤ key (getPTE l k) := by
  intro l
  induction l with
  | nil => intro i oldest repl k hk; simp at hk
  | cons e rest ih =>
    intro i oldest repl k hk hv
    simp only [findVictimAux]
    split
    next h =>
      match k with
      | 0 => exact findVictimAux_fst_le key rest (i + 1) (key e) ((i : Int))
      | k + 1 =>
        exact ih (i + 1) (key e) ((i : Int)) k (by simpa using hk) hv
    next h =>
      match k with
      | 0 =>
        have hge : oldest ≤ key e := by
          rw [getPTE_cons_zero] at hv
          by_contra hc
          exact h ⟨hv, lt_of_not_le hc⟩
        exact le_trans (findVictimAux_fst_le key rest (i + 1) oldest repl) hge
      | k + 1 =>
        exact ih (i + 1) oldest repl k (by simpa using hk) hv

lemma findVictimAux_witness (key : PTE → Int) :
    ∀ (l : List PTE) (i : Nat) (oldest repl : Int),
      ((findVictimAux key l i oldest repl).2 = repl ∧
        (findVictimAux key l i oldest repl).1 = oldest) ∨
      ∃ k, k < l.length ∧ (getPTE l k).is_valid = true ∧
        (findVictimAux key l i oldest repl).2 = ((i + k : Nat) : Int) ∧
        key (getPTE l k) = (findVictimAux key l i oldest repl).1 := by
  intro l
  induction l with
  | nil => intro i oldest repl; left; simp [findVictimAux]
  | cons e rest ih =>
    intro i oldest repl
    simp only [findVictimAux]
    split
    next h =>
      rcases ih (i + 1) (key e) ((i : Int)) with ⟨h2, h1⟩ | ⟨k, hk, hv, h2, h1⟩
      · right
        exact ⟨0, by simp, h.1, by simpa using h2, by simpa using h1.symm⟩
      · right
        refine ⟨k + 1, by simpa using hk, hv, ?_, h1⟩
        rw [h2]
        congr 1
        omega
    next h =>
      rcases ih (i + 1) oldest repl with ⟨h2, h1⟩ | ⟨k, hk, hv, h2, h1⟩
      · left; exact ⟨h2, h1⟩
      · right
        refine ⟨k + 1, by simpa using hk, hv, ?_, h1⟩
        rw [h2]
        congr 1
        omega

lemma findVictimAux_changed_lt (key : PTE → Int) :
    ∀ (l : List PTE) (i : Nat) (oldest repl : Int),
      (findVictimAux key l i oldest repl).2 ≠ repl →
      (findVictimAux key l i oldest repl).1 < oldest := by
  intro l
  induction l with
  | nil => intro i oldest repl h; simp [findVictimAux] at h
  | cons e rest ih =>
    intro i oldest repl
    simp only [findVictimAux]
    split
    next h =>
      intro _
      exact lt_of_le_of_lt (findVictimAux_fst_le key rest (i + 1) (key e) ((i : Int))) h.2
    next h =>
      exact ih (i + 1) oldest repl

lemma findVictimAux_before_gt (key : PTE → Int) :
    ∀ (l : List PTE) (i : Nat) (oldest repl : Int), repl < (i : Int) →
      ∀ k, k < l.length → (getPTE l k).is_valid = true →
      ((i + k : Nat) : Int) < (findVictimAux key l i oldest repl).2 →
      (findVictimAux key l i oldest repl).1 < key (getPTE l k) := by
  intro l
  induction l with
  | nil => intro i oldest repl _ k hk; simp at hk
  | cons e rest ih =>
    intro i oldest repl hrepl k hk hv hlt
    simp only [findVictimAux] at hlt ⊢
    split
    next h =>
      rw [if_pos h] at hlt
      match k with
      | 0 =>
        rw [getPTE_cons_zero]
        have hne : (findVictimAux key rest (i + 1) (key e) ((i : Int))).2 ≠ (i : Int) := by
          intro he
          rw [he] at hlt
          omega
        exact lt_of_lt_of_le (findVictimAux_changed_lt key rest (i + 1) (key e) ((i : Int)) hne)
          (le_refl (key e))
      | k + 1 =>
        refine ih (i + 1) (key e) ((i : Int)) (by omega) k (by simpa using hk) hv ?_
        have : ((i + 1 + k : Nat) : Int) = ((i + (k + 1) : Nat) : Int) := by congr 1; omega
        rw [this]
        exact hlt
    next h =>
      rw [if_neg h] at hlt
      match k with
      | 0 =>
        rw [getPTE_cons_zero]
        rw [getPTE_cons_zero] at hv
        have hne : (findVictimAux key rest (i + 1) oldest repl).2 ≠ repl := by
          intro he
          rw [he] at hlt
          omega
        have h1 := findVictimAux_changed_lt key rest (i + 1) oldest repl hne
        have hge : oldest ≤ key e := by
          by_contra hc
          exact h ⟨hv, lt_of_not_le hc⟩
        exact lt_of_lt_of_le h1 hge
      | k + 1 =>
        refine ih (i + 1) oldest repl (by omega) k (by simpa using hk) hv ?_
        have : ((i + 1 + k : Nat) : Int) = ((i + (k + 1) : Nat) : Int) := by congr 1; omega
        rw [this]
        exact hlt

lemma findVictimAux_progress (key : PTE → Int) :
    ∀ (l : List PTE) (i : Nat) (oldest repl : Int),
      (∃ k, k < l.length ∧ (getPTE l k).is_valid = true ∧ key (getPTE l k) < oldest) →
      (findVictimAux key l i oldest repl).1 < oldest := by
  intro l
  induction l with
  | nil => intro i oldest repl ⟨k, hk, _⟩; simp at hk
  | cons e rest ih =>
    intro i oldest repl ⟨k, hk, hv, hklt⟩
    simp only [findVictimAux]
    split
    next h =>
      exact lt_of_le_of_lt (findVictimAux_fst_le key rest (i + 1) (key e) ((i : Int))) h.2
    next h =>
      match k with
      | 0 =>
        rw [getPTE_cons_zero] at hv hklt
        exact absurd ⟨hv, hklt⟩ h
      | k + 1 =>
        exact ih (i + 1) oldest repl ⟨k, by simpa using hk, hv, hklt⟩

lemma findVictim_top (key : PTE → Int) (t : List PTE)
    (hbound : ∀ j, j < t.length → (getPTE t j).is_valid = true →
      key (getPTE t j) < INT_MAX)
    (hex : ∃ j, j < t.length ∧ (getPTE t j).is_valid = true) :
    ∃ v : Nat, v < t.length ∧ (getPTE t v).is_valid = true ∧
      (findVictimAux key t 0 INT_MAX (-1)).2 = (v : Int) ∧
      (∀ j, j < t.length → (getPTE t j).is_valid = true →
        key (getPTE t v) ≤ key (getPTE t j)) ∧
      (∀ j, j < t.length → (getPTE t j).is_valid = true →
        key (getPTE t j) = key (getPTE t v) → v ≤ j) := by
  obtain ⟨j0, hj0, hv0⟩ := hex
  have hprog := findVictimAux_progress key t 0 INT_MAX (-1)
    ⟨j0, hj0, hv0, hbound j0 hj0 hv0⟩
  rcases findVictimAux_witness key t 0 INT_MAX (-1) with ⟨_, h1⟩ | ⟨k, hk, hkv, h2, h1⟩
  · omega
  · refine ⟨k, hk, hkv, by simpa using h2, ?_, ?_⟩
    · intro j hj hjv
      rw [h1]
      exact findVictimAux_fst_le_valid key t 0 INT_MAX (-1) j hj hjv
    · intro j hj hjv heq
      by_contra hc
      have hjk : j < k := by omega
      have := findVictimAux_before_gt key t 0 INT_MAX (-1) (by simp) j hj hjv
        (by rw [h2]; simpa using (by omega : (j : Int) < (k : Int)))
      rw [heq, h1] at this
      exact absurd this (lt_irrefl _)

lemma findVictimLfuAux_le :
    ∀ (l : List PTE) (i : Nat) (m o repl : Int),
      (findVictimLfuAux l i m o repl).1 < m ∨
      ((findVictimLfuAux l i m o repl).1 = m ∧ (findVictimLfuAux l i m o repl).2.1 ≤ o) := by
  intro l
  induction l with
  | nil => intro i m o repl; right; simp [findVictimLfuAux]
  | cons e rest ih =>
    intro i m o repl
    simp only [findVictimLfuAux]
    split
    next hv =>
      split
      next h1 =>
        rcases ih (i + 1) e.reference_count e.arrival_timestamp (i : Int) with h | ⟨h, _⟩
        · left; omega
        · left; omega
      next h1 =>
        split
        next h2 =>
          rcases ih (i + 1) m e.arrival_timestamp (i : Int) with h | ⟨h, h3⟩
          · left; exact h
          · right; exact ⟨h, by omega⟩
        next h2 => exact ih (i + 1) m o repl
    next hv => exact ih (i + 1) m o repl

lemma findVictimLfuAux_le_valid :
    ∀ (l : List PTE) (i : Nat) (m o repl : Int) (k : Nat),
      k < l.length → (getPTE l k).is_valid = true →
      ((findVictimLfuAux l i m o repl).1 < (getPTE l k).reference_count ∨
       ((findVictimLfuAux l i m o repl).1 = (getPTE l k).reference_count ∧
        (findVictimLfuAux l i m o repl).2.1 ≤ (getPTE l k).arrival_timestamp)) := by
  intro l
  induction l with
  | nil => intro i m o repl k hk; simp at hk
  | cons e rest ih =>
    intro i m o repl k hk hv
    simp only [findVictimLfuAux]
    split
    next hev =>
      split
      next h1 =>
        match k with
        | 0 => exact findVictimLfuAux_le rest (i + 1) e.reference_count e.arrival_timestamp (i : Int)
        | k + 1 => exact ih (i + 1) e.reference_count e.arrival_timestamp (i : Int) k (by simpa using hk) hv
      next h1 =>
        split
        next h2 =>
          match k with
          | 0 =>
            rw [getPTE_cons_zero]
            rcases findVictimLfuAux_le rest (i + 1) m e.arrival_timestamp (i : Int) with h | ⟨h, h3⟩
            · left; omega
            · right; exact ⟨by omega, h3⟩
          | k + 1 => exact ih (i + 1) m e.arrival_timestamp (i : Int) k (by simpa using hk) hv
        next h2 =>
          match k with
          | 0 =>
            rw [getPTE_cons_zero]
            rw [getPTE_cons_zero] at hv
            have hge : m ≤ e.reference_count := by omega
            have hcase : m < e.reference_count ∨ (m = e.reference_count ∧ o ≤ e.arrival_timestamp) := by
              by_cases hme : e.reference_count = m
              · right
                refine ⟨hme.symm, ?_⟩
                by_contra hc
                exact h2 ⟨hme, by omega⟩
              · left; omega
            rcases findVictimLfuAux_le rest (i + 1) m o repl with h | ⟨h, h3⟩
            · left; omega
            · rcases hcase with hc | ⟨hc1, hc2⟩
              · left; omega
              · right; exact ⟨by omega, by omega⟩
          | k + 1 => exact ih (i + 1) m o repl k (by simpa using hk) hv
    next hev =>
      match k with
      | 0 =>
        rw [getPTE_cons_zero] at hv
        simp [hv] at hev
      | k + 1 => exact ih (i + 1) m o repl k (by simpa using hk) hv

lemma findVictimLfuAux_witness :
    ∀ (l : List PTE) (i : Nat) (m o repl : Int),
      ((findVictimLfuAux l i m o repl).2.2 = repl ∧
       (findVictimLfuAux l i m o repl).1 = m ∧
       (findVictimLfuAux l i m o repl).2.1 = o) ∨
      ∃ k, k < l.length ∧ (getPTE l k).is_valid = true ∧
        (findVictimLfuAux l i m o repl).2.2 = ((i + k : Nat) : Int) ∧
        (getPTE l k).reference_count = (findVictimLfuAux l i m o repl).1 ∧
        (getPTE l k).arrival_timestamp = (findVictimLfuAux l i m o repl).2.1 := by
  intro l
  induction l with
  | nil => intro i m o repl; left; simp [findVictimLfuAux]
  | cons e rest ih =>
    intro i m o repl
    simp only [findVictimLfuAux]
    split
    next hev =>
      split
      next h1 =>
        rcases ih (i + 1) e.reference_count e.arrival_timestamp (i : Int) with ⟨h2, hm, ho⟩ | ⟨k, hk, hkv, h2, hm, ho⟩
        · right
          exact ⟨0, by simp, hev, by simpa using h2, by simpa using hm.symm, by simpa using ho.symm⟩
        · right
          refine ⟨k + 1, by simpa using hk, hkv, ?_, hm, ho⟩
          rw [h2]; congr 1; omega
      next h1 =>
        split
        next h2 =>
          rcases ih (i + 1) m e.arrival_timestamp (i : Int) with ⟨hr2, hm, ho⟩ | ⟨k, hk, hkv, hr2, hm, ho⟩
          · right
            refine ⟨0, by simp, hev, by simpa using hr2, ?_, ?_⟩
            · rw [getPTE_cons_zero]; omega
            · rw [getPTE_cons_zero]; omega
          · right
            refine ⟨k + 1, by simpa using hk, hkv, ?_, hm, ho⟩
            rw [hr2]; congr 1; omega
        next h2 =>
          rcases ih (i + 1) m o repl with ⟨hr2, hm, ho⟩ | ⟨k, hk, hkv, hr2, hm, ho⟩
          · left; exact ⟨hr2, hm, ho⟩
          · right
            refine ⟨k + 1, by simpa using hk, hkv, ?_, hm, ho⟩
            rw [hr2]; congr 1; omega
    next hev =>
      rcases ih (i + 1) m o repl with ⟨hr2, hm, ho⟩ | ⟨k, hk, hkv, hr2, hm, ho⟩
      · left; exact ⟨hr2, hm, ho⟩
      · right
        refine ⟨k + 1, by simpa using hk, hkv, ?_, hm, ho⟩
        rw [hr2]; congr 1; omega

lemma findVictimLfuAux_changed_lt :
    ∀ (l : List PTE) (i : Nat) (m o repl : Int),
      (findVictimLfuAux l i m o repl).2.2 ≠ repl →
      ((findVictimLfuAux l i m o repl).1 < m ∨
       ((findVictimLfuAux l i m o repl).1 = m ∧ (findVictimLfuAux l i m o repl).2.1 < o)) := by
  intro l
  induction l with
  | nil => intro i m o repl h; simp [findVictimLfuAux] at h
  | cons e rest ih =>
    intro i m o repl
    simp only [findVictimLfuAux]
    split
    next hev =>
      split
      next h1 =>
        intro _
        rcases findVictimLfuAux_le rest (i + 1) e.reference_count e.arrival_timestamp (i : Int) with h | ⟨h, _⟩
        · left; omega
        · left; omega
      next h1 =>
        split
        next h2 =>
          intro _
          rcases findVictimLfuAux_le rest (i + 1) m e.arrival_timestamp (i : Int) with h | ⟨h, h3⟩
          · left; exact h
          · right; exact ⟨h, by omega⟩
        next h2 => exact ih (i + 1) m o repl
    next hev => exact ih (i + 1) m o repl

lemma findVictimLfuAux_before_gt :
    ∀ (l : List PTE) (i : Nat) (m o repl : Int), repl < (i : Int) →
      ∀ k, k < l.length → (getPTE l k).is_valid = true →
      ((i + k : Nat) : Int) < (findVictimLfuAux l i m o repl).2.2 →
      ((findVictimLfuAux l i m o repl).1 < (getPTE l k).reference_count ∨
       ((findVictimLfuAux l i m o repl).1 = (getPTE l k).reference_count ∧
        (findVictimLfuAux l i m o repl).2.1 < (getPTE l k).arrival_timestamp)) := by
  intro l
  induction l with
  | nil => intro i m o repl _ k hk; simp at hk
  | cons e rest ih =>
    intro i m o repl hrepl k hk hv hlt
    simp only [findVictimLfuAux] at hlt ⊢
    split
    next hev =>
      rw [if_pos hev] at hlt
      split
      next h1 =>
        rw [if_pos h1] at hlt
        match k with
        | 0 =>
          rw [getPTE_cons_zero]
          have hne : (findVictimLfuAux rest (i + 1) e.reference_count e.arrival_timestamp (i : Int)).2.2 ≠ (i : Int) := by
            intro he; rw [he] at hlt; omega
          rcases findVictimLfuAux_changed_lt rest (i + 1) e.reference_count e.arrival_timestamp (i : Int) hne with h | ⟨h, h3⟩
          · left; exact h
          · right; exact ⟨h, h3⟩
        | k + 1 =>
          refine ih (i + 1) e.reference_count e.arrival_timestamp (i : Int) (by omega) k (by simpa using hk) hv ?_
          have hq : ((i + 1 + k : Nat) : Int) = ((i + (k + 1) : Nat) : Int) := by omega
          rw [hq]; exact hlt
      next h1 =>
        rw [if_neg h1] at hlt
        split
        next h2 =>
          rw [if_pos h2] at hlt
          match k with
          | 0 =>
            rw [getPTE_cons_zero]
            have hne : (findVictimLfuAux rest (i + 1) m e.arrival_timestamp (i : Int)).2.2 ≠ (i : Int) := by
              intro he; rw [he] at hlt; omega
            rcases findVictimLfuAux_changed_lt rest (i + 1) m e.arrival_timestamp (i : Int) hne with h | ⟨h, h3⟩
            · left; omega
            · right; exact ⟨by omega, h3⟩
          | k + 1 =>
            refine ih (i + 1) m e.arrival_timestamp (i : Int) (by omega) k (by simpa using hk) hv ?_
            have hq : ((i + 1 + k : Nat) : Int) = ((i + (k + 1) : Nat) : Int) := by omega
            rw [hq]; exact hlt
        next h2 =>
          rw [if_neg h2] at hlt
          match k with
          | 0 =>
            rw [getPTE_cons_zero]
            rw [getPTE_cons_zero] at hv
            have hne : (findVictimLfuAux rest (i + 1) m o repl).2.2 ≠ repl := by
              intro he; rw [he] at hlt; omega
            have hge : m ≤ e.reference_count := by omega
            rcases findVictimLfuAux_changed_lt rest (i + 1) m o repl hne with h | ⟨h, h3⟩
            · left; omega
            · by_cases hme : e.reference_count = m
              · right
                refine ⟨by omega, ?_⟩
                have ho : o ≤ e.arrival_timestamp := by
                  by_contra hc
                  exact h2 ⟨hme, by omega⟩
                omega
              · left; omega
          | k + 1 =>
            refine ih (i + 1) m o repl (by omega) k (by simpa using hk) hv ?_
            have hq : ((i + 1 + k : Nat) : Int) = ((i + (k + 1) : Nat) : Int) := by omega
            rw [hq]; exact hlt
    next hev =>
      rw [if_neg hev] at hlt
      match k with
      | 0 =>
        rw [getPTE_cons_zero] at hv
        simp [hv] at hev
      | k + 1 =>
        refine ih (i + 1) m o repl (by omega) k (by simpa using hk) hv ?_
        have hq : ((i + 1 + k : Nat) : Int) = ((i + (k + 1) : Nat) : Int) := by omega
        rw [hq]; exact hlt

lemma findVictimLfuAux_progress :
    ∀ (l : List PTE) (i : Nat) (m o repl : Int),
      (∃ k, k < l.length ∧ (getPTE l k).is_valid = true ∧
        ((getPTE l k).reference_count < m ∨
         ((getPTE l k).reference_count = m ∧ (getPTE l k).arrival_timestamp < o))) →
      ((findVictimLfuAux l i m o repl).1 < m ∨
       ((findVictimLfuAux l i m o repl).1 = m ∧ (findVictimLfuAux l i m o repl).2.1 < o)) := by
  intro l
  induction l with
  | nil => intro i m o repl ⟨k, hk, _⟩; simp at hk
  | cons e rest ih =>
    intro i m o repl ⟨k, hk, hkv, hklt⟩
    simp only [findVictimLfuAux]
    split
    next hev =>
      split
      next h1 =>
        rcases findVictimLfuAux_le rest (i + 1) e.reference_count e.arrival_timestamp (i : Int) with h | ⟨h, _⟩
        · left; omega
        · left; omega
      next h1 =>
        split
        next h2 =>
          rcases findVictimLfuAux_le rest (i + 1) m e.arrival_timestamp (i : Int) with h | ⟨h, h3⟩
          · left; exact h
          · right; exact ⟨h, by omega⟩
        next h2 =>
          match k with
          | 0 =>
            rw [getPTE_cons_zero] at hkv hklt
            rcases hklt with hc | ⟨hc1, hc2⟩
            · omega
            · exact absurd ⟨hc1, hc2⟩ h2
          | k + 1 =>
            exact ih (i + 1) m o repl ⟨k, by simpa using hk, hkv, hklt⟩
    next hev =>
      match k with
      | 0 =>
        rw [getPTE_cons_zero] at hkv
        simp [hkv] at hev
      | k + 1 =>
        exact ih (i + 1) m o repl ⟨k, by simpa using hk, hkv, hklt⟩

lemma findVictimLfu_top (t : List PTE)
    (hbound : ∀ j, j < t.length → (getPTE t j).is_valid = true →
      (getPTE t j).reference_count < INT_MAX)
    (hex : ∃ j, j < t.length ∧ (getPTE t j).is_valid = true) :
    ∃ v : Nat, v < t.length ∧ (getPTE t v).is_valid = true ∧
      (findVictimLfu t).2.2 = (v : Int) ∧
      (∀ j, j < t.length → (getPTE t j).is_valid = true →
        ((getPTE t v).reference_count < (getPTE t j).reference_count ∨
         ((getPTE t v).reference_count = (getPTE t j).reference_count ∧
          (getPTE t v).arrival_timestamp ≤ (getPTE t j).arrival_timestamp))) ∧
      (∀ j, j < t.length → (getPTE t j).is_valid = true →
        (getPTE t j).reference_count = (getPTE t v).reference_count →
        (getPTE t j).arrival_timestamp = (getPTE t v).arrival_timestamp → v ≤ j) := by
  obtain ⟨j0, hj0, hv0⟩ := hex
  have hprog := findVictimLfuAux_progress t 0 INT_MAX INT_MAX (-1)
    ⟨j0, hj0, hv0, Or.inl (hbound j0 hj0 hv0)⟩
  rcases findVictimLfuAux_witness t 0 INT_MAX INT_MAX (-1) with ⟨_, hm, ho⟩ | ⟨k, hk, hkv, h2, hm, ho⟩
  · omega
  · refine ⟨k, hk, hkv, by simpa using h2, ?_, ?_⟩
    · intro j hj hjv
      rw [hm, ho]
      exact findVictimLfuAux_le_valid t 0 INT_MAX INT_MAX (-1) j hj hjv
    · intro j hj hjv heqr heqa
      by_contra hc
      have hjk : j < k := by omega
      have := findVictimLfuAux_before_gt t 0 INT_MAX INT_MAX (-1) (by simp) j hj hjv
        (by rw [h2]; simpa using (by omega : (j : Int) < (k : Int)))
      rw [heqr, heqa, hm, ho] at this
      omega

lemma getPTE_set_self : ∀ (t : List PTE) (n : Nat) (e : PTE), n < t.length →
    getPTE (t.set n e) n = e := by
  intro t
  induction t with
  | nil => intro n e h; simp at h
  | cons a rest ih =>
    intro n e h
    match n with
    | 0 => rfl
    | n + 1 => exact ih n e (by simpa using h)

lemma getPTE_set_other : ∀ (t : List PTE) (n m : Nat) (e : PTE), n ≠ m →
    getPTE (t.set n e) m = getPTE t m := by
  intro t
  induction t with
  | nil => intro n m e _; rfl
  | cons a rest ih =>
    intro n m e hne
    match n, m with
    | 0, 0 => exact absurd rfl hne
    | 0, m + 1 => rfl
    | n + 1, 0 => rfl
    | n + 1, m + 1 => exact ih n m e (by omega)

lemma countP_set (p : PTE → Bool) : ∀ (t : List PTE) (n : Nat) (e : PTE), n < t.length →
    (t.set n e).countP p + (if p (getPTE t n) then 1 else 0) =
      t.countP p + (if p e then 1 else 0) := by
  intro t
  induction t with
  | nil => intro n e h; simp at h
  | cons a rest ih =>
    intro n e h
    match n with
    | 0 =>
      simp only [List.set, List.countP_cons, getPTE_cons_zero]
      omega
    | n + 1 =>
      simp only [List.set, List.countP_cons, getPTE_cons_succ]
      have := ih n e (by simpa using h)
      omega

/-- Claim C1, as stated, is false at this state: pages 0 and 1 are both
resident with arrival_timestamp 1, page 1 holds the smaller frame number
(2 against 5), yet the FIFO eviction on an access to the non-resident
page 2 with no free frame selects page 0 and hands its frame 5 to the
faulting page: the victim is not the tied resident page with the smallest
frame_index. -/
theorem fifo_tie_break_counterexample :
    (getPTE [⟨true, 5, 1, 1, 1⟩, ⟨true, 2, 1, 1, 1⟩, ⟨false, 0, 0, 0, 0⟩] 0).arrival_timestamp =
      (getPTE [⟨true, 5, 1, 1, 1⟩, ⟨true, 2, 1, 1, 1⟩, ⟨false, 0, 0, 0, 0⟩] 1).arrival_timestamp ∧
    (getPTE [⟨true, 5, 1, 1, 1⟩, ⟨true, 2, 1, 1, 1⟩, ⟨false, 0, 0, 0, 0⟩] 1).frame_number <
      (getPTE [⟨true, 5, 1, 1, 1⟩, ⟨true, 2, 1, 1, 1⟩, ⟨false, 0, 0, 0, 0⟩] 0).frame_number ∧
    processPageAccessFifo [⟨true, 5, 1, 1, 1⟩, ⟨true, 2, 1, 1, 1⟩, ⟨false, 0, 0, 0, 0⟩] 2 [] 7 =
      (5, [⟨false, -1, -1, -1, -1⟩, ⟨true, 2, 1, 1, 1⟩, ⟨true, 5, 7, 7, 1⟩], []) := by
  decide

/-- Claim C1 amended: on a FIFO access to a non-resident page with no free
frame, when every resident arrival_timestamp is below the INT_MAX sentinel
and some page is resident, the evicted victim is the resident page with
the smallest arrival_timestamp, and a tie on arrival_timestamp is broken
towards the smallest page number (table index), not the smallest frame
number; the victim is marked invalid and the faulting page takes over its
frame. -/
theorem fifo_victim_rule (t : List PTE) (page : Nat) (ts : Int)
    (hp : page < t.length)
    (hnv : (getPTE t page).is_valid = false)
    (hbound : ∀ j, j < t.length → (getPTE t j).is_valid = true →
      (getPTE t j).arrival_timestamp < INT_MAX)
    (hex : ∃ j, j < t.length ∧ (getPTE t j).is_valid = true) :
    ∃ v : Nat, v < t.length ∧ (getPTE t v).is_valid = true ∧
      (∀ j, j < t.length → (getPTE t j).is_valid = true →
        (getPTE t v).arrival_timestamp ≤ (getPTE t j).arrival_timestamp) ∧
      (∀ j, j < t.length → (getPTE t j).is_valid = true →
        (getPTE t j).arrival_timestamp = (getPTE t v).arrival_timestamp → v ≤ j) ∧
      processPageAccessFifo t page [] ts =
        ((getPTE t v).frame_number,
         (t.set v ⟨false, -1, -1, -1, -1⟩).set page
           ⟨true, (getPTE t v).frame_number, ts, ts, 1⟩,
         []) := by
  obtain ⟨v, hvlen, hvval, hr2, hmin, htie⟩ :=
    findVictim_top (fun e => e.arrival_timestamp) t hbound hex
  have hr2f : (findVictimFifo t).2 = (v : Int) := hr2
  refine ⟨v, hvlen, hvval, hmin, htie, ?_⟩
  simp only [processPageAccessFifo, hnv, Bool.false_eq_true, if_false, hr2f]
  have hne : ¬ ((v : Int) = -1) := by omega
  simp only [hne, if_false, Int.toNat_natCast]

/-- Witness for the amended C1 rule at a concrete state: two resident
pages with arrivals 3 and 2, access to page 2 with empty pool; the victim
is page 1. -/
theorem fifo_victim_rule_witness :
    ∃ v : Nat, v < ([⟨true, 0, 3, 3, 1⟩, ⟨true, 1, 2, 2, 1⟩, ⟨false, 0, 0, 0, 0⟩] : List PTE).length ∧
      (getPTE [⟨true, 0, 3, 3, 1⟩, ⟨true, 1, 2, 2, 1⟩, ⟨false, 0, 0, 0, 0⟩] v).is_valid = true ∧
      (∀ j, j < ([⟨true, 0, 3, 3, 1⟩, ⟨true, 1, 2, 2, 1⟩, ⟨false, 0, 0, 0, 0⟩] : List PTE).length →
        (getPTE [⟨true, 0, 3, 3, 1⟩, ⟨true, 1, 2, 2, 1⟩, ⟨false, 0, 0, 0, 0⟩] j).is_valid = true →
        (getPTE [⟨true, 0, 3, 3, 1⟩, ⟨true, 1, 2, 2, 1⟩, ⟨false, 0, 0, 0, 0⟩] v).arrival_timestamp ≤
          (getPTE [⟨true, 0, 3, 3, 1⟩, ⟨true, 1, 2, 2, 1⟩, ⟨false, 0, 0, 0, 0⟩] j).arrival_timestamp) ∧
      (∀ j, j < ([⟨true, 0, 3, 3, 1⟩, ⟨true, 1, 2, 2, 1⟩, ⟨false, 0, 0, 0, 0⟩] : List PTE).length →
        (getPTE [⟨true, 0, 3, 3, 1⟩, ⟨true, 1, 2, 2, 1⟩, ⟨false, 0, 0, 0, 0⟩] j).is_valid = true →
        (getPTE [⟨true, 0, 3, 3, 1⟩, ⟨true, 1, 2, 2, 1⟩, ⟨false, 0, 0, 0, 0⟩] j).arrival_timestamp =
          (getPTE [⟨true, 0, 3, 3, 1⟩, ⟨true, 1, 2, 2, 1⟩, ⟨false, 0, 0, 0, 0⟩] v).arrival_timestamp → v ≤ j) ∧
      processPageAccessFifo [⟨true, 0, 3, 3, 1⟩, ⟨true, 1, 2, 2, 1⟩, ⟨false, 0, 0, 0, 0⟩] 2 [] 5 =
        ((getPTE [⟨true, 0, 3, 3, 1⟩, ⟨true, 1, 2, 2, 1⟩, ⟨false, 0, 0, 0, 0⟩] v).frame_number,
         (([⟨true, 0, 3, 3, 1⟩, ⟨true, 1, 2, 2, 1⟩, ⟨false, 0, 0, 0, 0⟩] : List PTE).set v ⟨false, -1, -1, -1, -1⟩).set 2
           ⟨true, (getPTE [⟨true, 0, 3, 3, 1⟩, ⟨true, 1, 2, 2, 1⟩, ⟨false, 0, 0, 0, 0⟩] v).frame_number, 5, 5, 1⟩,
         []) :=
  fifo_victim_rule [⟨true, 0, 3, 3, 1⟩, ⟨true, 1, 2, 2, 1⟩, ⟨false, 0, 0, 0, 0⟩] 2 5
    (by decide) (by decide)
    (by
      intro j hj hv
      simp only [List.length_cons, List.length_nil] at hj
      interval_cases j <;> revert hv <;> decide)
    ⟨0, by decide, by decide⟩

/-- Claim C2, as stated, is false at this state: pages 0 and 1 are both
resident with last_access_timestamp 5, page 1 has the strictly smaller
arrival_timestamp (1 against 2), yet the LRU eviction on an access to the
non-resident page 2 with no free frame selects page 0: the tie on
last_access_time is not broken by smallest arrival_time. -/
theorem lru_tie_break_counterexample :
    (getPTE [⟨true, 0, 2, 5, 1⟩, ⟨true, 1, 1, 5, 1⟩, ⟨false, 0, 0, 0, 0⟩] 0).last_access_timestamp =
      (getPTE [⟨true, 0, 2, 5, 1⟩, ⟨true, 1, 1, 5, 1⟩, ⟨false, 0, 0, 0, 0⟩] 1).last_access_timestamp ∧
    (getPTE [⟨true, 0, 2, 5, 1⟩, ⟨true, 1, 1, 5, 1⟩, ⟨false, 0, 0, 0, 0⟩] 1).arrival_timestamp <
      (getPTE [⟨true, 0, 2, 5, 1⟩, ⟨true, 1, 1, 5, 1⟩, ⟨false, 0, 0, 0, 0⟩] 0).arrival_timestamp ∧
    processPageAccessLru [⟨true, 0, 2, 5, 1⟩, ⟨true, 1, 1, 5, 1⟩, ⟨false, 0, 0, 0, 0⟩] 2 [] 7 =
      (0, [⟨false, -1, -1, -1, -1⟩, ⟨true, 1, 1, 5, 1⟩, ⟨true, 0, 7, 7, 1⟩], []) := by
  decide

/-- Claim C2 amended: on an LRU access to a non-resident page with no free
frame, when every resident last_access_timestamp is below the INT_MAX
sentinel and some page is resident, the evicted victim is the resident
page with the smallest last_access_timestamp, and a tie on
last_access_timestamp is broken towards the smallest page number (table
index); arrival_timestamp and frame_index are not consulted. -/
theorem lru_victim_rule (t : List PTE) (page : Nat) (ts : Int)
    (hp : page < t.length)
    (hnv : (getPTE t page).is_valid = false)
    (hbound : ∀ j, j < t.length → (getPTE t j).is_valid = true →
      (getPTE t j).last_access_timestamp < INT_MAX)
    (hex : ∃ j, j < t.length ∧ (getPTE t j).is_valid = true) :
    ∃ v : Nat, v < t.length ∧ (getPTE t v).is_valid = true ∧
      (∀ j, j < t.length → (getPTE t j).is_valid = true →
        (getPTE t v).last_access_timestamp ≤ (getPTE t j).last_access_timestamp) ∧
      (∀ j, j < t.length → (getPTE t j).is_valid = true →
        (getPTE t j).last_access_timestamp = (getPTE t v).last_access_timestamp → v ≤ j) ∧
      processPageAccessLru t page [] ts =
        ((getPTE t v).frame_number,
         (t.set v ⟨false, -1, -1, -1, -1⟩).set page
           ⟨true, (getPTE t v).frame_number, ts, ts, 1⟩,
         []) := by
  obtain ⟨v, hvlen, hvval, hr2, hmin, htie⟩ :=
    findVictim_top (fun e => e.last_access_timestamp) t hbound hex
  have hr2f : (findVictimLru t).2 = (v : Int) := hr2
  refine ⟨v, hvlen, hvval, hmin, htie, ?_⟩
  simp only [processPageAccessLru, hnv, Bool.false_eq_true, if_false, hr2f]
  have hne : ¬ ((v : Int) = -1) := by omega
  simp only [hne, if_false, Int.toNat_natCast]

/-- Witness for the amended C2 rule at a concrete state: resident pages
with last accesses 3 and 2, access to page 2 with empty pool; the victim
is page 1. -/
theorem lru_victim_rule_witness :
    ∃ v : Nat, v < ([⟨true, 0, 1, 3, 1⟩, ⟨true, 1, 1, 2, 1⟩, ⟨false, 0, 0, 0, 0⟩] : List PTE).length ∧
      (getPTE [⟨true, 0, 1, 3, 1⟩, ⟨true, 1, 1, 2, 1⟩, ⟨false, 0, 0, 0, 0⟩] v).is_valid = true ∧
      (∀ j, j < ([⟨true, 0, 1, 3, 1⟩, ⟨true, 1, 1, 2, 1⟩, ⟨false, 0, 0, 0, 0⟩] : List PTE).length →
        (getPTE [⟨true, 0, 1, 3, 1⟩, ⟨true, 1, 1, 2, 1⟩, ⟨false, 0, 0, 0, 0⟩] j).is_valid = true →
        (getPTE [⟨true, 0, 1, 3, 1⟩, ⟨true, 1, 1, 2, 1⟩, ⟨false, 0, 0, 0, 0⟩] v).last_access_timestamp ≤
          (getPTE [⟨true, 0, 1, 3, 1⟩, ⟨true, 1, 1, 2, 1⟩, ⟨false, 0, 0, 0, 0⟩] j).last_access_timestamp) ∧
      (∀ j, j < ([⟨true, 0, 1, 3, 1⟩, ⟨true, 1, 1, 2, 1⟩, ⟨false, 0, 0, 0, 0⟩] : List PTE).length →
        (getPTE [⟨true, 0, 1, 3, 1⟩, ⟨true, 1, 1, 2, 1⟩, ⟨false, 0, 0, 0, 0⟩] j).is_valid = true →
        (getPTE [⟨true, 0, 1, 3, 1⟩, ⟨true, 1, 1, 2, 1⟩, ⟨false, 0, 0, 0, 0⟩] j).last_access_timestamp =
          (getPTE [⟨true, 0, 1, 3, 1⟩, ⟨true, 1, 1, 2, 1⟩, ⟨false, 0, 0, 0, 0⟩] v).last_access_timestamp → v ≤ j) ∧
      processPageAccessLru [⟨true, 0, 1, 3, 1⟩, ⟨true, 1, 1, 2, 1⟩, ⟨false, 0, 0, 0, 0⟩] 2 [] 5 =
        ((getPTE [⟨true, 0, 1, 3, 1⟩, ⟨true, 1, 1, 2, 1⟩, ⟨false, 0, 0, 0, 0⟩] v).frame_number,
         (([⟨true, 0, 1, 3, 1⟩, ⟨true, 1, 1, 2, 1⟩, ⟨false, 0, 0, 0, 0⟩] : List PTE).set v ⟨false, -1, -1, -1, -1⟩).set 2
           ⟨true, (getPTE [⟨true, 0, 1, 3, 1⟩, ⟨true, 1, 1, 2, 1⟩, ⟨false, 0, 0, 0, 0⟩] v).frame_number, 5, 5, 1⟩,
         []) :=
  lru_victim_rule [⟨true, 0, 1, 3, 1⟩, ⟨true, 1, 1, 2, 1⟩, ⟨false, 0, 0, 0, 0⟩] 2 5
    (by decide) (by decide)
    (by
      intro j hj hv
      simp only [List.length_cons, List.length_nil] at hj
      interval_cases j <;> revert hv <;> decide)
    ⟨0, by decide, by decide⟩

/-- Claim C3, as stated, is false at this state: pages 0 and 1 are both
resident with reference_count 1 and arrival_timestamp 2, page 1 holds the
smaller frame number (2 against 7), yet the LFU eviction on an access to
the non-resident page 2 with no free frame selects page 0: the remaining
tie is not broken by smallest frame_index. -/
theorem lfu_tie_break_counterexample :
    (getPTE [⟨true, 7, 2, 2, 1⟩, ⟨true, 2, 2, 2, 1⟩, ⟨false, 0, 0, 0, 0⟩] 0).reference_count =
      (getPTE [⟨true, 7, 2, 2, 1⟩, ⟨true, 2, 2, 2, 1⟩, ⟨false, 0, 0, 0, 0⟩] 1).reference_count ∧
    (getPTE [⟨true, 7, 2, 2, 1⟩, ⟨true, 2, 2, 2, 1⟩, ⟨false, 0, 0, 0, 0⟩] 0).arrival_timestamp =
      (getPTE [⟨true, 7, 2, 2, 1⟩, ⟨true, 2, 2, 2, 1⟩, ⟨false, 0, 0, 0, 0⟩] 1).arrival_timestamp ∧
    (getPTE [⟨true, 7, 2, 2, 1⟩, ⟨true, 2, 2, 2, 1⟩, ⟨false, 0, 0, 0, 0⟩] 1).frame_number <
      (getPTE [⟨true, 7, 2, 2, 1⟩, ⟨true, 2, 2, 2, 1⟩, ⟨false, 0, 0, 0, 0⟩] 0).frame_number ∧
    processPageAccessLfu [⟨true, 7, 2, 2, 1⟩, ⟨true, 2, 2, 2, 1⟩, ⟨false, 0, 0, 0, 0⟩] 2 [] 6 =
      (7, [⟨false, -1, -1, -1, -1⟩, ⟨true, 2, 2, 2, 1⟩, ⟨true, 7, 6, 6, 1⟩], []) := by
  decide

/-- Claim C3 amended: on an LFU access to a non-resident page with no free
frame, when every resident reference_count is below the INT_MAX sentinel
and some page is resident, the evicted victim minimises reference_count,
with ties broken by smallest arrival_timestamp and remaining ties broken
towards the smallest page number (table index), not the smallest frame
number.  The scenario part of the claim holds: with capacity 3 and
reference string 1,2,2,3,4 the first LFU eviction, triggered by the access
to page 4, evicts page 1, whose frame (the first pool frame 10) is handed
to page 4. -/
theorem lfu_victim_rule (t : List PTE) (page : Nat) (ts : Int)
    (hp : page < t.length)
    (hnv : (getPTE t page).is_valid = false)
    (hbound : ∀ j, j < t.length → (getPTE t j).is_valid = true →
      (getPTE t j).reference_count < INT_MAX)
    (hex : ∃ j, j < t.length ∧ (getPTE t j).is_valid = true) :
    (∃ v : Nat, v < t.length ∧ (getPTE t v).is_valid = true ∧
      (∀ j, j < t.length → (getPTE t j).is_valid = true →
        ((getPTE t v).reference_count < (getPTE t j).reference_count ∨
         ((getPTE t v).reference_count = (getPTE t j).reference_count ∧
          (getPTE t v).arrival_timestamp ≤ (getPTE t j).arrival_timestamp))) ∧
      (∀ j, j < t.length → (getPTE t j).is_valid = true →
        (getPTE t j).reference_count = (getPTE t v).reference_count →
        (getPTE t j).arrival_timestamp = (getPTE t v).arrival_timestamp → v ≤ j) ∧
      processPageAccessLfu t page [] ts =
        ((getPTE t v).frame_number,
         (t.set v ⟨false, -1, -1, -1, -1⟩).set page
           ⟨true, (getPTE t v).frame_number, ts, ts, 1⟩,
         [])) ∧
    (countPageFaultsLfuLoop (List.replicate 6 emptyPTE) [10, 11, 12] [1, 2, 2, 3, 4] 1 0).2.1 =
      [emptyPTE, ⟨false, -1, -1, -1, -1⟩, ⟨true, 11, 2, 3, 2⟩,
       ⟨true, 12, 4, 4, 1⟩, ⟨true, 10, 5, 5, 1⟩, emptyPTE] := by
  constructor
  · obtain ⟨v, hvlen, hvval, hr2, hmin, htie⟩ := findVictimLfu_top t hbound hex
    have hr2f : (findVictimLfu t).2.2 = (v : Int) := hr2
    refine ⟨v, hvlen, hvval, hmin, htie, ?_⟩
    simp only [processPageAccessLfu, hnv, Bool.false_eq_true, if_false, hr2f]
    have hne : ¬ ((v : Int) = -1) := by omega
    simp only [hne, if_false, Int.toNat_natCast]
  · decide

/-- Witness for the amended C3 rule at a concrete state: page 0 has
reference_count 2, page 1 has reference_count 1; the victim on an access
to page 2 with empty pool is page 1. -/
theorem lfu_victim_rule_witness :
    (∃ v : Nat, v < ([⟨true, 0, 1, 4, 2⟩, ⟨true, 1, 2, 2, 1⟩, ⟨false, 0, 0, 0, 0⟩] : List PTE).length ∧
      (getPTE [⟨true, 0, 1, 4, 2⟩, ⟨true, 1, 2, 2, 1⟩, ⟨false, 0, 0, 0, 0⟩] v).is_valid = true ∧
      (∀ j, j < ([⟨true, 0, 1, 4, 2⟩, ⟨true, 1, 2, 2, 1⟩, ⟨false, 0, 0, 0, 0⟩] : List PTE).length →
        (getPTE [⟨true, 0, 1, 4, 2⟩, ⟨true, 1, 2, 2, 1⟩, ⟨false, 0, 0, 0, 0⟩] j).is_valid = true →
        ((getPTE [⟨true, 0, 1, 4, 2⟩, ⟨true, 1, 2, 2, 1⟩, ⟨false, 0, 0, 0, 0⟩] v).reference_count <
            (getPTE [⟨true, 0, 1, 4, 2⟩, ⟨true, 1, 2, 2, 1⟩, ⟨false, 0, 0, 0, 0⟩] j).reference_count ∨
         ((getPTE [⟨true, 0, 1, 4, 2⟩, ⟨true, 1, 2, 2, 1⟩, ⟨false, 0, 0, 0, 0⟩] v).reference_count =
            (getPTE [⟨true, 0, 1, 4, 2⟩, ⟨true, 1, 2, 2, 1⟩, ⟨false, 0, 0, 0, 0⟩] j).reference_count ∧
          (getPTE [⟨true, 0, 1, 4, 2⟩, ⟨true, 1, 2, 2, 1⟩, ⟨false, 0, 0, 0, 0⟩] v).arrival_timestamp ≤
            (getPTE [⟨true, 0, 1, 4, 2⟩, ⟨true, 1, 2, 2, 1⟩, ⟨false, 0, 0, 0, 0⟩] j).arrival_timestamp))) ∧
      (∀ j, j < ([⟨true, 0, 1, 4, 2⟩, ⟨true, 1, 2, 2, 1⟩, ⟨false, 0, 0, 0, 0⟩] : List PTE).length →
        (getPTE [⟨true, 0, 1, 4, 2⟩, ⟨true, 1, 2, 2, 1⟩, ⟨false, 0, 0, 0, 0⟩] j).is_valid = true →
        (getPTE [⟨true, 0, 1, 4, 2⟩, ⟨true, 1, 2, 2, 1⟩, ⟨false, 0, 0, 0, 0⟩] j).reference_count =
          (getPTE [⟨true, 0, 1, 4, 2⟩, ⟨true, 1, 2, 2, 1⟩, ⟨false, 0, 0, 0, 0⟩] v).reference_count →
        (getPTE [⟨true, 0, 1, 4, 2⟩, ⟨true, 1, 2, 2, 1⟩, ⟨false, 0, 0, 0, 0⟩] j).arrival_timestamp =
          (getPTE [⟨true, 0, 1, 4, 2⟩, ⟨true, 1, 2, 2, 1⟩, ⟨false, 0, 0, 0, 0⟩] v).arrival_timestamp → v ≤ j) ∧
      processPageAccessLfu [⟨true, 0, 1, 4, 2⟩, ⟨true, 1, 2, 2, 1⟩, ⟨false, 0, 0, 0, 0⟩] 2 [] 5 =
        ((getPTE [⟨true, 0, 1, 4, 2⟩, ⟨true, 1, 2, 2, 1⟩, ⟨false, 0, 0, 0, 0⟩] v).frame_number,
         (([⟨true, 0, 1, 4, 2⟩, ⟨true, 1, 2, 2, 1⟩, ⟨false, 0, 0, 0, 0⟩] : List PTE).set v ⟨false, -1, -1, -1, -1⟩).set 2
           ⟨true, (getPTE [⟨true, 0, 1, 4, 2⟩, ⟨true, 1, 2, 2, 1⟩, ⟨false, 0, 0, 0, 0⟩] v).frame_number, 5, 5, 1⟩,
         [])) ∧
    (countPageFaultsLfuLoop (List.replicate 6 emptyPTE) [10, 11, 12] [1, 2, 2, 3, 4] 1 0).2.1 =
      [emptyPTE, ⟨false, -1, -1, -1, -1⟩, ⟨true, 11, 2, 3, 2⟩,
       ⟨true, 12, 4, 4, 1⟩, ⟨true, 10, 5, 5, 1⟩, emptyPTE] :=
  lfu_victim_rule [⟨true, 0, 1, 4, 2⟩, ⟨true, 1, 2, 2, 1⟩, ⟨false, 0, 0, 0, 0⟩] 2 5
    (by decide) (by decide)
    (by
      intro j hj hv
      simp only [List.length_cons, List.length_nil] at hj
      interval_cases j <;> revert hv <;> decide)
    ⟨0, by decide, by decide⟩

/-- Claim C4, as stated, is false: the FIFO run with capacity 3 (pool of
three frames) over the reference string 1,2,3,4,1,2,5,1,2,3 from an empty
six-entry table does not yield 9 faults. -/
theorem fifo_scenario_counterexample :
    (countPageFaultsFifo (List.replicate 6 emptyPTE) [1, 2, 3, 4, 1, 2, 5, 1, 2, 3] [0, 1, 2]).1 ≠ 9 := by
  decide

/-- Claim C4 amended: the FIFO run with capacity 3 over the reference
string 1,2,3,4,1,2,5,1,2,3 from an empty table yields 8 faults (the last
three references are hit, hit, fault). -/
theorem fifo_scenario_faults :
    (countPageFaultsFifo (List.replicate 6 emptyPTE) [1, 2, 3, 4, 1, 2, 5, 1, 2, 3] [0, 1, 2]).1 = 8 := by
  decide

/-- Claim C5, as stated, is false: the LRU run with capacity 3 over the
reference string 1,2,3,4,1,2,5,1,2,3 from an empty six-entry table does
not yield 10 faults. -/
theorem lru_scenario_counterexample :
    (countPageFaultsLru (List.replicate 6 emptyPTE) [1, 2, 3, 4, 1, 2, 5, 1, 2, 3] [0, 1, 2]).1 ≠ 10 := by
  decide

/-- Claim C5 amended: the LRU run with capacity 3 over the reference
string 1,2,3,4,1,2,5,1,2,3 from an empty table yields 8 faults. -/
theorem lru_scenario_faults :
    (countPageFaultsLru (List.replicate 6 emptyPTE) [1, 2, 3, 4, 1, 2, 5, 1, 2, 3] [0, 1, 2]).1 = 8 := by
  decide

/-- Claim C6, as stated, is false: a FIFO hit does not leave the
reference_count unchanged.  At this state page 0 is resident with
reference_count 1, and after the FIFO hit its reference_count is 2. -/
theorem fifo_hit_refcount_counterexample :
    (getPTE [⟨true, 0, 1, 1, 1⟩] 0).reference_count = 1 ∧
    (getPTE (processPageAccessFifo [⟨true, 0, 1, 1, 1⟩] 0 [] 2).2.1 0).reference_count = 2 := by
  decide

/-- Claim C6 amended: a FIFO access to a resident page returns its frame
number, sets its last_access_timestamp to the current clock, increments
its reference_count (the increment is performed under every policy, not
only LFU), leaves its validity, frame number and arrival_timestamp
unchanged, leaves the frame pool unchanged, and leaves every other page
entry unchanged. -/
theorem fifo_hit_effect (t : List PTE) (page : Nat) (pool : List Int) (ts : Int)
    (hp : page < t.length)
    (hv : (getPTE t page).is_valid = true) :
    processPageAccessFifo t page pool ts =
      ((getPTE t page).frame_number,
       t.set page
         ⟨(getPTE t page).is_valid, (getPTE t page).frame_number,
          (getPTE t page).arrival_timestamp, ts, (getPTE t page).reference_count + 1⟩,
       pool) ∧
    (getPTE (processPageAccessFifo t page pool ts).2.1 page).is_valid = true ∧
    (getPTE (processPageAccessFifo t page pool ts).2.1 page).frame_number =
      (getPTE t page).frame_number ∧
    (getPTE (processPageAccessFifo t page pool ts).2.1 page).arrival_timestamp =
      (getPTE t page).arrival_timestamp ∧
    (getPTE (processPageAccessFifo t page pool ts).2.1 page).last_access_timestamp = ts ∧
    (getPTE (processPageAccessFifo t page pool ts).2.1 page).reference_count =
      (getPTE t page).reference_count + 1 ∧
    (∀ j, j ≠ page → getPTE (processPageAccessFifo t page pool ts).2.1 j = getPTE t j) := by
  have heq : processPageAccessFifo t page pool ts =
      ((getPTE t page).frame_number,
       t.set page
         ⟨(getPTE t page).is_valid, (getPTE t page).frame_number,
          (getPTE t page).arrival_timestamp, ts, (getPTE t page).reference_count + 1⟩,
       pool) := by
    simp only [processPageAccessFifo, hv, if_true]
  refine ⟨heq, ?_, ?_, ?_, ?_, ?_, ?_⟩ <;> rw [heq]
  · rw [getPTE_set_self t page _ hp]; exact hv
  · rw [getPTE_set_self t page _ hp]
  · rw [getPTE_set_self t page _ hp]
  · rw [getPTE_set_self t page _ hp]
  · rw [getPTE_set_self t page _ hp]
  · intro j hj
    exact getPTE_set_other t page j _ (fun h => hj h.symm)

/-- Witness for the amended C6 hit effect at a concrete state. -/
theorem fifo_hit_effect_witness :
    processPageAccessFifo [⟨true, 4, 1, 1, 1⟩, ⟨false, 0, 0, 0, 0⟩] 0 [9] 3 =
      ((getPTE [⟨true, 4, 1, 1, 1⟩, ⟨false, 0, 0, 0, 0⟩] 0).frame_number,
       ([⟨true, 4, 1, 1, 1⟩, ⟨false, 0, 0, 0, 0⟩] : List PTE).set 0
         ⟨(getPTE [⟨true, 4, 1, 1, 1⟩, ⟨false, 0, 0, 0, 0⟩] 0).is_valid,
          (getPTE [⟨true, 4, 1, 1, 1⟩, ⟨false, 0, 0, 0, 0⟩] 0).frame_number,
          (getPTE [⟨true, 4, 1, 1, 1⟩, ⟨false, 0, 0, 0, 0⟩] 0).arrival_timestamp, 3,
          (getPTE [⟨true, 4, 1, 1, 1⟩, ⟨false, 0, 0, 0, 0⟩] 0).reference_count + 1⟩,
       [9]) ∧
    (getPTE (processPageAccessFifo [⟨true, 4, 1, 1, 1⟩, ⟨false, 0, 0, 0, 0⟩] 0 [9] 3).2.1 0).is_valid = true ∧
    (getPTE (processPageAccessFifo [⟨true, 4, 1, 1, 1⟩, ⟨false, 0, 0, 0, 0⟩] 0 [9] 3).2.1 0).frame_number =
      (getPTE [⟨true, 4, 1, 1, 1⟩, ⟨false, 0, 0, 0, 0⟩] 0).frame_number ∧
    (getPTE (processPageAccessFifo [⟨true, 4, 1, 1, 1⟩, ⟨false, 0, 0, 0, 0⟩] 0 [9] 3).2.1 0).arrival_timestamp =
      (getPTE [⟨true, 4, 1, 1, 1⟩, ⟨false, 0, 0, 0, 0⟩] 0).arrival_timestamp ∧
    (getPTE (processPageAccessFifo [⟨true, 4, 1, 1, 1⟩, ⟨false, 0, 0, 0, 0⟩] 0 [9] 3).2.1 0).last_access_timestamp = 3 ∧
    (getPTE (processPageAccessFifo [⟨true, 4, 1, 1, 1⟩, ⟨false, 0, 0, 0, 0⟩] 0 [9] 3).2.1 0).reference_count =
      (getPTE [⟨true, 4, 1, 1, 1⟩, ⟨false, 0, 0, 0, 0⟩] 0).reference_count + 1 ∧
    (∀ j, j ≠ 0 →
      getPTE (processPageAccessFifo [⟨true, 4, 1, 1, 1⟩, ⟨false, 0, 0, 0, 0⟩] 0 [9] 3).2.1 j =
        getPTE [⟨true, 4, 1, 1, 1⟩, ⟨false, 0, 0, 0, 0⟩] j) :=
  fifo_hit_effect [⟨true, 4, 1, 1, 1⟩, ⟨false, 0, 0, 0, 0⟩] 0 [9] 3 (by decide) (by decide)

/-- Claim C8 evaluated at its failing input: the engine performs no
configuration validation.  A FIFO run with frame capacity 0 (empty pool)
over the single reference 0 from an all-invalid table is processed rather
than rejected: one fault is counted, no error is signalled (the return is
the plain fault count), and the access leaves the simulated table
unchanged because there is neither a free frame nor a resident victim. -/
theorem zero_capacity_run_processed :
    (countPageFaultsFifo (List.replicate 6 emptyPTE) [0] []).1 = 1 ∧
    (countPageFaultsFifoLoop (List.replicate 6 emptyPTE) [] [0] 1 0).2.1 =
      List.replicate 6 emptyPTE := by
  decide

lemma countPageFaultsFifoLoop_ts :
    ∀ (refs : List Nat) (t : List PTE) (pool : List Int) (ts f : Int),
      (countPageFaultsFifoLoop t pool refs ts f).2.2.2 = ts + refs.length := by
  intro refs
  induction refs with
  | nil => intro t pool ts f; simp [countPageFaultsFifoLoop]
  | cons p rest ih =>
    intro t pool ts f
    by_cases hv : (getPTE t p).is_valid = false
    · cases pool with
      | cons frame poolRest =>
        simp only [countPageFaultsFifoLoop]
        rw [if_pos hv, ih]
        simp only [List.length_cons]
        omega
      | nil =>
        by_cases hr : (findVictimFifo t).2 = -1
        · simp only [countPageFaultsFifoLoop]
          rw [if_pos hv, if_pos hr, ih]
          simp only [List.length_cons]
          omega
        · simp only [countPageFaultsFifoLoop]
          rw [if_pos hv, if_neg hr, ih]
          simp only [List.length_cons]
          omega
    · simp only [countPageFaultsFifoLoop]
      rw [if_neg hv, ih]
      simp only [List.length_cons]
      omega

lemma countPageFaultsLruLoop_ts :
    ∀ (refs : List Nat) (t : List PTE) (pool : List Int) (ts f : Int),
      (countPageFaultsLruLoop t pool refs ts f).2.2.2 = ts + refs.length := by
  intro refs
  induction refs with
  | nil => intro t pool ts f; simp [countPageFaultsLruLoop]
  | cons p rest ih =>
    intro t pool ts f
    by_cases hv : (getPTE t p).is_valid = false
    · cases pool with
      | cons frame poolRest =>
        simp only [countPageFaultsLruLoop]
        rw [if_pos hv, ih]
        simp only [List.length_cons]
        omega
      | nil =>
        by_cases hr : (findVictimLru t).2 = -1
        · simp only [countPageFaultsLruLoop]
          rw [if_pos hv, if_pos hr, ih]
          simp only [List.length_cons]
          omega
        · simp only [countPageFaultsLruLoop]
          rw [if_pos hv, if_neg hr, ih]
          simp only [List.length_cons]
          omega
    · simp only [countPageFaultsLruLoop]
      rw [if_neg hv, ih]
      simp only [List.length_cons]
      omega

lemma countPageFaultsLfuLoop_ts :
    ∀ (refs : List Nat) (t : List PTE) (pool : List Int) (ts f : Int),
      (countPageFaultsLfuLoop t pool refs ts f).2.2.2 = ts + refs.length := by
  intro refs
  induction refs with
  | nil => intro t pool ts f; simp [countPageFaultsLfuLoop]
  | cons p rest ih =>
    intro t pool ts f
    by_cases hv : (getPTE t p).is_valid = false
    · cases pool with
      | cons frame poolRest =>
        simp only [countPageFaultsLfuLoop]
        rw [if_pos hv, ih]
        simp only [List.length_cons]
        omega
      | nil =>
        by_cases hr : (findVictimLfu t).2.2 = -1
        · simp only [countPageFaultsLfuLoop]
          rw [if_pos hv, if_pos hr, ih]
          simp only [List.length_cons]
          omega
        · simp only [countPageFaultsLfuLoop]
          rw [if_pos hv, if_neg hr, ih]
          simp only [List.length_cons]
          omega
    · simp only [countPageFaultsLfuLoop]
      rw [if_neg hv, ih]
      simp only [List.length_cons]
      omega

/-- Claim C7: under every policy the logical clock starts at 1 and is
advanced by exactly one per reference processed: after the first i
references of any run the clock reads 1 + i, which is the timestamp handed
to the following reference; and a run over the empty reference string
returns fault count 0 and leaves the simulated table and pool exactly as
initialised (in particular an initialised, all-invalid table stays
entirely empty). -/
theorem clock_and_empty_run :
    (∀ (t : List PTE) (pool : List Int) (refs : List Nat) (i : Nat), i ≤ refs.length →
      (countPageFaultsFifoLoop t pool (refs.take i) 1 0).2.2.2 = 1 + (i : Int) ∧
      (countPageFaultsLruLoop t pool (refs.take i) 1 0).2.2.2 = 1 + (i : Int) ∧
      (countPageFaultsLfuLoop t pool (refs.take i) 1 0).2.2.2 = 1 + (i : Int)) ∧
    (∀ (t : List PTE) (pool : List Int),
      (countPageFaultsFifo t [] pool).1 = 0 ∧
      (countPageFaultsLru t [] pool).1 = 0 ∧
      (countPageFaultsLfu t [] pool).1 = 0 ∧
      countPageFaultsFifoLoop t pool [] 1 0 = (0, t, pool, 1) ∧
      countPageFaultsLruLoop t pool [] 1 0 = (0, t, pool, 1) ∧
      countPageFaultsLfuLoop t pool [] 1 0 = (0, t, pool, 1)) := by
  constructor
  · intro t pool refs i hi
    have hlen : (refs.take i).length = i := by
      rw [List.length_take]
      omega
    refine ⟨?_, ?_, ?_⟩
    · rw [countPageFaultsFifoLoop_ts, hlen]
    · rw [countPageFaultsLruLoop_ts, hlen]
    · rw [countPageFaultsLfuLoop_ts, hlen]
  · intro t pool
    exact ⟨rfl, rfl, rfl, rfl, rfl, rfl⟩

/-- Witness for C7 at a concrete run: after the first reference of the
two-element string 5,5 the clock reads 2 under every policy. -/
theorem clock_and_empty_run_witness :
    (countPageFaultsFifoLoop [] [] ([5, 5].take 1) 1 0).2.2.2 = 1 + (1 : Int) ∧
    (countPageFaultsLruLoop [] [] ([5, 5].take 1) 1 0).2.2.2 = 1 + (1 : Int) ∧
    (countPageFaultsLfuLoop [] [] ([5, 5].take 1) 1 0).2.2.2 = 1 + (1 : Int) :=
  clock_and_empty_run.1 [] [] [5, 5] 1 (by decide)

lemma inv_set_same (t : List PTE) (page : Nat) (e2 : PTE) (pool : List Int) (cap : Nat)
    (hp : page < t.length)
    (hvv : e2.is_valid = (getPTE t page).is_valid)
    (hff : e2.frame_number = (getPTE t page).frame_number)
    (hinv : EngineInv t pool cap) :
    EngineInv (t.set page e2) pool cap := by
  obtain ⟨hd, hpo, hcap⟩ := hinv
  have hget : ∀ m, (getPTE (t.set page e2) m).is_valid = (getPTE t m).is_valid ∧
      (getPTE (t.set page e2) m).frame_number = (getPTE t m).frame_number := by
    intro m
    by_cases h : page = m
    · subst h
      rw [getPTE_set_self t page e2 hp]
      exact ⟨hvv, hff⟩
    · rw [getPTE_set_other t page m e2 h]
      exact ⟨rfl, rfl⟩
  refine ⟨?_, ?_, ?_⟩
  · intro i hi j hj hvi hvj hij
    simp only [List.length_set] at hi hj
    rw [(hget i).1] at hvi
    rw [(hget j).1] at hvj
    rw [(hget i).2, (hget j).2]
    exact hd i hi j hj hvi hvj hij
  · refine ⟨hpo.1, ?_⟩
    intro f hf j hj hjv
    simp only [List.length_set] at hj
    rw [(hget j).1] at hjv
    rw [(hget j).2]
    exact hpo.2 f hf j hj hjv
  · have hc := countP_set (fun e => e.is_valid) t page e2 hp
    simp only [hvv] at hc
    have h2 : residentCount (t.set page e2) = residentCount t := by
      unfold residentCount
      omega
    rw [h2]
    exact hcap

lemma inv_fill (t : List PTE) (page : Nat) (frame : Int) (poolRest : List Int)
    (ts : Int) (cap : Nat)
    (hp : page < t.length)
    (hnv : (getPTE t page).is_valid = false)
    (hinv : EngineInv t (frame :: poolRest) cap) :
    EngineInv (t.set page ⟨true, frame, ts, ts, 1⟩) poolRest cap := by
  obtain ⟨hd, ⟨hnd, hdisj⟩, hcap⟩ := hinv
  have hnotmem : frame ∉ poolRest := (List.nodup_cons.mp hnd).1
  refine ⟨?_, ⟨(List.nodup_cons.mp hnd).2, ?_⟩, ?_⟩
  · intro i hi j hj hvi hvj hij
    simp only [List.length_set] at hi hj
    by_cases hip : page = i
    · subst hip
      have hjp : page ≠ j := hij
      rw [getPTE_set_self t page _ hp] at hvi ⊢
      rw [getPTE_set_other t page j _ hjp] at hvj ⊢
      exact fun h => (hdisj frame (List.mem_cons_self frame poolRest) j hj hvj) h.symm
    · by_cases hjp : page = j
      · subst hjp
        rw [getPTE_set_self t page _ hp] at hvj ⊢
        rw [getPTE_set_other t page i _ hip] at hvi ⊢
        exact hdisj frame (List.mem_cons_self frame poolRest) i hi hvi
      · rw [getPTE_set_other t page i _ hip] at hvi ⊢
        rw [getPTE_set_other t page j _ hjp] at hvj ⊢
        exact hd i hi j hj hvi hvj hij
  · intro f hf j hj hjv
    simp only [List.length_set] at hj
    by_cases hjp : page = j
    · subst hjp
      rw [getPTE_set_self t page _ hp]
      intro h
      have h2 : frame = f := h
      exact hnotmem (by rw [h2]; exact hf)
    · rw [getPTE_set_other t page j _ hjp] at hjv ⊢
      exact hdisj f (List.mem_cons_of_mem frame hf) j hj hjv
  · have hc := countP_set (fun e => e.is_valid) t page ⟨true, frame, ts, ts, 1⟩ hp
    simp [hnv] at hc
    have h2 : residentCount (t.set page ⟨true, frame, ts, ts, 1⟩) = residentCount t + 1 := by
      unfold residentCount
      omega
    rw [h2]
    simp only [List.length_cons] at hcap
    omega

lemma inv_evict (t : List PTE) (page v : Nat) (ts : Int) (cap : Nat)
    (hp : page < t.length)
    (hnv : (getPTE t page).is_valid = false)
    (hv : v < t.length)
    (hvv : (getPTE t v).is_valid = true)
    (hinv : EngineInv t [] cap) :
    EngineInv ((t.set v ⟨false, -1, -1, -1, -1⟩).set page
      ⟨true, (getPTE t v).frame_number, ts, ts, 1⟩) [] cap := by
  obtain ⟨hd, _, hcap⟩ := hinv
  have hpv : page ≠ v := by
    intro h
    rw [h, hvv] at hnv
    exact absurd hnv (by decide)
  have hp1 : page < (t.set v ⟨false, -1, -1, -1, -1⟩).length := by
    rw [List.length_set]; exact hp
  have hv1 : v < (t.set v ⟨false, -1, -1, -1, -1⟩).length := by
    rw [List.length_set]; exact hv
  have g_page : getPTE ((t.set v ⟨false, -1, -1, -1, -1⟩).set page
      ⟨true, (getPTE t v).frame_number, ts, ts, 1⟩) page =
      ⟨true, (getPTE t v).frame_number, ts, ts, 1⟩ :=
    getPTE_set_self _ page _ hp1
  have g_v : getPTE ((t.set v ⟨false, -1, -1, -1, -1⟩).set page
      ⟨true, (getPTE t v).frame_number, ts, ts, 1⟩) v = ⟨false, -1, -1, -1, -1⟩ := by
    rw [getPTE_set_other _ page v _ hpv]
    exact getPTE_set_self t v _ hv
  have g_other : ∀ m, page ≠ m → v ≠ m →
      getPTE ((t.set v ⟨false, -1, -1, -1, -1⟩).set page
        ⟨true, (getPTE t v).frame_number, ts, ts, 1⟩) m = getPTE t m := by
    intro m hm1 hm2
    rw [getPTE_set_other _ page m _ hm1]
    exact getPTE_set_other t v m _ hm2
  refine ⟨?_, ⟨List.nodup_nil, ?_⟩, ?_⟩
  · intro i hi j hj hvi hvj hij
    simp only [List.length_set] at hi hj
    by_cases hiv : v = i
    · subst hiv
      rw [g_v] at hvi
      exact absurd hvi (by decide)
    · by_cases hjv2 : v = j
      · subst hjv2
        rw [g_v] at hvj
        exact absurd hvj (by decide)
      · by_cases hip : page = i
        · subst hip
          have hjp : page ≠ j := hij
          rw [g_page]
          rw [g_other j hjp hjv2] at hvj ⊢
          exact hd v hv j hj hvv hvj hjv2
        · by_cases hjp : page = j
          · subst hjp
            rw [g_page]
            rw [g_other i hip hiv] at hvi ⊢
            exact fun h => (hd v hv i hi hvv hvi hiv) h.symm
          · rw [g_other i hip hiv] at hvi ⊢
            rw [g_other j hjp hjv2] at hvj ⊢
            exact hd i hi j hj hvi hvj hij
  · intro f hf
    exact absurd hf (List.not_mem_nil f)
  · have hc1 := countP_set (fun e => e.is_valid) t v ⟨false, -1, -1, -1, -1⟩ hv
    simp [hvv] at hc1
    have hgp1 : getPTE (t.set v ⟨false, -1, -1, -1, -1⟩) page = getPTE t page :=
      getPTE_set_other t v page _ (fun h => hpv h.symm)
    have hc2 := countP_set (fun e => e.is_valid)
      (t.set v ⟨false, -1, -1, -1, -1⟩) page ⟨true, (getPTE t v).frame_number, ts, ts, 1⟩ hp1
    rw [hgp1] at hc2
    simp [hnv] at hc2
    unfold residentCount
    unfold residentCount at hcap
    simp only [List.length_nil] at hcap ⊢
    omega

/-- Claim C9, as stated, is false at this state: the resident pages of the
initial table have pairwise distinct frames, resident pages (1) plus free
frames (1) do not exceed the capacity 2, yet the free frame 5 in the pool
coincides with the frame of the resident page 0, so after the FIFO access
to page 1 two resident pages share frame 5. -/
theorem frame_overlap_counterexample :
    DistinctFrames [⟨true, 5, 1, 1, 1⟩, ⟨false, 0, 0, 0, 0⟩] ∧
    residentCount [⟨true, 5, 1, 1, 1⟩, ⟨false, 0, 0, 0, 0⟩] +
      ([5] : List Int).length ≤ 2 ∧
    ¬ DistinctFrames (processPageAccessFifo [⟨true, 5, 1, 1, 1⟩, ⟨false, 0, 0, 0, 0⟩] 1 [5] 2).2.1 := by
  decide

/-- Claim C9 amended: for every access under every policy, starting from a
state in which the frames of resident pages together with the free frames
of the pool are pairwise distinct (the pool is duplicate free and disjoint
from the resident frames) and resident pages plus free frames do not
exceed the capacity, the resulting state satisfies the same invariant: in
particular the resident pages again have pairwise distinct frames and the
number of resident pages does not exceed the capacity. -/
theorem access_preserves_invariants (t : List PTE) (pool : List Int) (page : Nat)
    (ts : Int) (cap : Nat)
    (hp : page < t.length)
    (hinv : EngineInv t pool cap) :
    (EngineInv (processPageAccessFifo t page pool ts).2.1
        (processPageAccessFifo t page pool ts).2.2 cap ∧
      residentCount (processPageAccessFifo t page pool ts).2.1 ≤ cap) ∧
    (EngineInv (processPageAccessLru t page pool ts).2.1
        (processPageAccessLru t page pool ts).2.2 cap ∧
      residentCount (processPageAccessLru t page pool ts).2.1 ≤ cap) ∧
    (EngineInv (processPageAccessLfu t page pool ts).2.1
        (processPageAccessLfu t page pool ts).2.2 cap ∧
      residentCount (processPageAccessLfu t page pool ts).2.1 ≤ cap) := by
  have hcount : ∀ (t2 : List PTE) (pool2 : List Int), EngineInv t2 pool2 cap →
      residentCount t2 ≤ cap := by
    intro t2 pool2 hI
    exact le_trans (Nat.le_add_right _ _) hI.2.2
  have HF : EngineInv (processPageAccessFifo t page pool ts).2.1
      (processPageAccessFifo t page pool ts).2.2 cap := by
    by_cases hv : (getPTE t page).is_valid = true
    · have heq2 : (processPageAccessFifo t page pool ts).2 =
          (t.set page ⟨(getPTE t page).is_valid, (getPTE t page).frame_number,
            (getPTE t page).arrival_timestamp, ts, (getPTE t page).reference_count + 1⟩,
           pool) := by
        simp only [processPageAccessFifo, hv, if_true]
      rw [heq2]
      exact inv_set_same t page _ pool cap hp rfl rfl hinv
    · have hnv : (getPTE t page).is_valid = false := by
        cases hb : (getPTE t page).is_valid
        · rfl
        · exact absurd hb hv
      cases pool with
      | cons frame poolRest =>
        have heq2 : (processPageAccessFifo t page (frame :: poolRest) ts).2 =
            (t.set page ⟨true, frame, ts, ts, 1⟩, poolRest) := by
          simp only [processPageAccessFifo, hnv, Bool.false_eq_true, if_false]
        rw [heq2]
        exact inv_fill t page frame poolRest ts cap hp hnv hinv
      | nil =>
        by_cases hr : (findVictimFifo t).2 = -1
        · have heq2 : (processPageAccessFifo t page [] ts).2 = (t, []) := by
            simp only [processPageAccessFifo, hnv, Bool.false_eq_true, if_false]
            rw [if_pos hr]
          rw [heq2]
          exact hinv
        · rcases findVictimAux_witness (fun e => e.arrival_timestamp) t 0 INT_MAX (-1) with
            ⟨h2, _⟩ | ⟨k, hk, hkv, h2, _⟩
          · exact absurd h2 hr
          · have hr2f : (findVictimFifo t).2 = ((k : Nat) : Int) := by simpa using h2
            have hne : ¬ (((k : Nat) : Int) = -1) := by omega
            have heq2 : (processPageAccessFifo t page [] ts).2 =
                ((t.set k ⟨false, -1, -1, -1, -1⟩).set page
                  ⟨true, (getPTE t k).frame_number, ts, ts, 1⟩, []) := by
              simp only [processPageAccessFifo, hnv, Bool.false_eq_true, if_false, hr2f,
                hne, Int.toNat_natCast]
            rw [heq2]
            exact inv_evict t page k ts cap hp hnv hk hkv hinv
  have HL : EngineInv (processPageAccessLru t page pool ts).2.1
      (processPageAccessLru t page pool ts).2.2 cap := by
    by_cases hv : (getPTE t page).is_valid = true
    · have heq2 : (processPageAccessLru t page pool ts).2 =
          (t.set page ⟨(getPTE t page).is_valid, (getPTE t page).frame_number,
            (getPTE t page).arrival_timestamp, ts, (getPTE t page).reference_count + 1⟩,
           pool) := by
        simp only [processPageAccessLru, hv, if_true]
      rw [heq2]
      exact inv_set_same t page _ pool cap hp rfl rfl hinv
    · have hnv : (getPTE t page).is_valid = false := by
        cases hb : (getPTE t page).is_valid
        · rfl
        · exact absurd hb hv
      cases pool with
      | cons frame poolRest =>
        have heq2 : (processPageAccessLru t page (frame :: poolRest) ts).2 =
            (t.set page ⟨true, frame, ts, ts, 1⟩, poolRest) := by
          simp only [processPageAccessLru, hnv, Bool.false_eq_true, if_false]
        rw [heq2]
        exact inv_fill t page frame poolRest ts cap hp hnv hinv
      | nil =>
        by_cases hr : (findVictimLru t).2 = -1
        · have heq2 : (processPageAccessLru t page [] ts).2 = (t, []) := by
            simp only [processPageAccessLru, hnv, Bool.false_eq_true, if_false]
            rw [if_pos hr]
          rw [heq2]
          exact hinv
        · rcases findVictimAux_witness (fun e => e.last_access_timestamp) t 0 INT_MAX (-1) with
            ⟨h2, _⟩ | ⟨k, hk, hkv, h2, _⟩
          · exact absurd h2 hr
          · have hr2f : (findVictimLru t).2 = ((k : Nat) : Int) := by simpa using h2
            have hne : ¬ (((k : Nat) : Int) = -1) := by omega
            have heq2 : (processPageAccessLru t page [] ts).2 =
                ((t.set k ⟨false, -1, -1, -1, -1⟩).set page
                  ⟨true, (getPTE t k).frame_number, ts, ts, 1⟩, []) := by
              simp only [processPageAccessLru, hnv, Bool.false_eq_true, if_false, hr2f,
                hne, Int.toNat_natCast]
            rw [heq2]
            exact inv_evict t page k ts cap hp hnv hk hkv hinv
  have HU : EngineInv (processPageAccessLfu t page pool ts).2.1
      (processPageAccessLfu t page pool ts).2.2 cap := by
    by_cases hv : (getPTE t page).is_valid = true
    · have heq2 : (processPageAccessLfu t page pool ts).2 =
          (t.set page ⟨(getPTE t page).is_valid, (getPTE t page).frame_number,
            (getPTE t page).arrival_timestamp, ts, (getPTE t page).reference_count + 1⟩,
           pool) := by
        simp only [processPageAccessLfu, hv, if_true]
      rw [heq2]
      exact inv_set_same t page _ pool cap hp rfl rfl hinv
    · have hnv : (getPTE t page).is_valid = false := by
        cases hb : (getPTE t page).is_valid
        · rfl
        · exact absurd hb hv
      cases pool with
      | cons frame poolRest =>
        have heq2 : (processPageAccessLfu t page (frame :: poolRest) ts).2 =
            (t.set page ⟨true, frame, ts, ts, 1⟩, poolRest) := by
          simp only [processPageAccessLfu, hnv, Bool.false_eq_true, if_false]
        rw [heq2]
        exact inv_fill t page frame poolRest ts cap hp hnv hinv
      | nil =>
        by_cases hr : (findVictimLfu t).2.2 = -1
        · have heq2 : (processPageAccessLfu t page [] ts).2 = (t, []) := by
            simp only [processPageAccessLfu, hnv, Bool.false_eq_true, if_false]
            rw [if_pos hr]
          rw [heq2]
          exact hinv
        · rcases findVictimLfuAux_witness t 0 INT_MAX INT_MAX (-1) with
            ⟨h2, _⟩ | ⟨k, hk, hkv, h2, _⟩
          · exact absurd h2 hr
          · have hr2f : (findVictimLfu t).2.2 = ((k : Nat) : Int) := by simpa using h2
            have hne : ¬ (((k : Nat) : Int) = -1) := by omega
            have heq2 : (processPageAccessLfu t page [] ts).2 =
                ((t.set k ⟨false, -1, -1, -1, -1⟩).set page
                  ⟨true, (getPTE t k).frame_number, ts, ts, 1⟩, []) := by
              simp only [processPageAccessLfu, hnv, Bool.false_eq_true, if_false, hr2f,
                hne, Int.toNat_natCast]
            rw [heq2]
            exact inv_evict t page k ts cap hp hnv hk hkv hinv
  exact ⟨⟨HF, hcount _ _ HF⟩, ⟨HL, hcount _ _ HL⟩, ⟨HU, hcount _ _ HU⟩⟩

/-- Witness for the amended C9 invariant preservation at a concrete state:
one resident page in frame 0, one free frame 1, capacity 2, access to the
non-resident page 1. -/
theorem access_preserves_invariants_witness :
    (EngineInv (processPageAccessFifo [⟨true, 0, 1, 1, 1⟩, ⟨false, 0, 0, 0, 0⟩] 1 [1] 2).2.1
        (processPageAccessFifo [⟨true, 0, 1, 1, 1⟩, ⟨false, 0, 0, 0, 0⟩] 1 [1] 2).2.2 2 ∧
      residentCount (processPageAccessFifo [⟨true, 0, 1, 1, 1⟩, ⟨false, 0, 0, 0, 0⟩] 1 [1] 2).2.1 ≤ 2) ∧
    (EngineInv (processPageAccessLru [⟨true, 0, 1, 1, 1⟩, ⟨false, 0, 0, 0, 0⟩] 1 [1] 2).2.1
        (processPageAccessLru [⟨true, 0, 1, 1, 1⟩, ⟨false, 0, 0, 0, 0⟩] 1 [1] 2).2.2 2 ∧
      residentCount (processPageAccessLru [⟨true, 0, 1, 1, 1⟩, ⟨false, 0, 0, 0, 0⟩] 1 [1] 2).2.1 ≤ 2) ∧
    (EngineInv (processPageAccessLfu [⟨true, 0, 1, 1, 1⟩, ⟨false, 0, 0, 0, 0⟩] 1 [1] 2).2.1
        (processPageAccessLfu [⟨true, 0, 1, 1, 1⟩, ⟨false, 0, 0, 0, 0⟩] 1 [1] 2).2.2 2 ∧
      residentCount (processPageAccessLfu [⟨true, 0, 1, 1, 1⟩, ⟨false, 0, 0, 0, 0⟩] 1 [1] 2).2.1 ≤ 2) :=
  access_preserves_invariants [⟨true, 0, 1, 1, 1⟩, ⟨false, 0, 0, 0, 0⟩] [1] 1 2 2
    (by decide) (by decide)

lemma loop_run_fifo : ∀ (refs : List Nat) (t : List PTE) (pool : List Int) (ts f : Int),
    (countPageFaultsFifoLoop t pool refs ts f).1 = f + (runFifo t pool refs ts).1 := by
  intro refs
  induction refs with
  | nil => intro t pool ts f; simp [countPageFaultsFifoLoop, runFifo]
  | cons p rest ih =>
    intro t pool ts f
    by_cases hv : (getPTE t p).is_valid = false
    · cases pool with
      | cons frame poolRest =>
        have hs : (processPageAccessFifo t p (frame :: poolRest) ts).2 =
            (t.set p ⟨true, frame, ts, ts, 1⟩, poolRest) := by
          simp only [processPageAccessFifo, hv, Bool.false_eq_true, if_false]
        simp only [countPageFaultsFifoLoop]
        rw [if_pos hv, ih]
        simp only [runFifo, hs, hv, Bool.false_eq_true, if_false]
        omega
      | nil =>
        by_cases hr : (findVictimFifo t).2 = -1
        · have hs : (processPageAccessFifo t p [] ts).2 = (t, []) := by
            simp only [processPageAccessFifo, hv, Bool.false_eq_true, if_false]
            rw [if_pos hr]
          simp only [countPageFaultsFifoLoop]
          rw [if_pos hv, if_pos hr, ih]
          simp only [runFifo, hs, hv, Bool.false_eq_true, if_false]
          omega
        · have hs : (processPageAccessFifo t p [] ts).2 =
              ((t.set (findVictimFifo t).2.toNat ⟨false, -1, -1, -1, -1⟩).set p
                ⟨true, (getPTE t (findVictimFifo t).2.toNat).frame_number, ts, ts, 1⟩, []) := by
            simp only [processPageAccessFifo, hv, Bool.false_eq_true, if_false]
            rw [if_neg hr]
          simp only [countPageFaultsFifoLoop]
          rw [if_pos hv, if_neg hr, ih]
          simp only [runFifo, hs, hv, Bool.false_eq_true, if_false]
          omega
    · have hvt : (getPTE t p).is_valid = true := by
        cases hb : (getPTE t p).is_valid
        · exact absurd hb hv
        · rfl
      have hs : (processPageAccessFifo t p pool ts).2 =
          (t.set p ⟨(getPTE t p).is_valid, (getPTE t p).frame_number,
            (getPTE t p).arrival_timestamp, ts, (getPTE t p).reference_count + 1⟩, pool) := by
        simp only [processPageAccessFifo, hvt, if_true]
      simp only [countPageFaultsFifoLoop]
      rw [if_neg hv, ih]
      simp only [runFifo, hs, hvt, if_true]
      omega

lemma loop_run_lru : ∀ (refs : List Nat) (t : List PTE) (pool : List Int) (ts f : Int),
    (countPageFaultsLruLoop t pool refs ts f).1 = f + (runLru t pool refs ts).1 := by
  intro refs
  induction refs with
  | nil => intro t pool ts f; simp [countPageFaultsLruLoop, runLru]
  | cons p rest ih =>
    intro t pool ts f
    by_cases hv : (getPTE t p).is_valid = false
    · cases pool with
      | cons frame poolRest =>
        have hs : (processPageAccessLru t p (frame :: poolRest) ts).2 =
            (t.set p ⟨true, frame, ts, ts, 1⟩, poolRest) := by
          simp only [processPageAccessLru, hv, Bool.false_eq_true, if_false]
        simp only [countPageFaultsLruLoop]
        rw [if_pos hv, ih]
        simp only [runLru, hs, hv, Bool.false_eq_true, if_false]
        omega
      | nil =>
        by_cases hr : (findVictimLru t).2 = -1
        · have hs : (processPageAccessLru t p [] ts).2 = (t, []) := by
            simp only [processPageAccessLru, hv, Bool.false_eq_true, if_false]
            rw [if_pos hr]
          simp only [countPageFaultsLruLoop]
          rw [if_pos hv, if_pos hr, ih]
          simp only [runLru, hs, hv, Bool.false_eq_true, if_false]
          omega
        · have hs : (processPageAccessLru t p [] ts).2 =
              ((t.set (findVictimLru t).2.toNat ⟨false, -1, -1, -1, -1⟩).set p
                ⟨true, (getPTE t (findVictimLru t).2.toNat).frame_number, ts, ts, 1⟩, []) := by
            simp only [processPageAccessLru, hv, Bool.false_eq_true, if_false]
            rw [if_neg hr]
          simp only [countPageFaultsLruLoop]
          rw [if_pos hv, if_neg hr, ih]
          simp only [runLru, hs, hv, Bool.false_eq_true, if_false]
          omega
    · have hvt : (getPTE t p).is_valid = true := by
        cases hb : (getPTE t p).is_valid
        · exact absurd hb hv
        · rfl
      have hs : (processPageAccessLru t p pool ts).2 =
          (t.set p ⟨(getPTE t p).is_valid, (getPTE t p).frame_number,
            (getPTE t p).arrival_timestamp, ts, (getPTE t p).reference_count + 1⟩, pool) := by
        simp only [processPageAccessLru, hvt, if_true]
      simp only [countPageFaultsLruLoop]
      rw [if_neg hv, ih]
      simp only [runLru, hs, hvt, if_true]
      omega

lemma loop_run_lfu : ∀ (refs : List Nat) (t : List PTE) (pool : List Int) (ts f : Int),
    (countPageFaultsLfuLoop t pool refs ts f).1 = f + (runLfu t pool refs ts).1 := by
  intro refs
  induction refs with
  | nil => intro t pool ts f; simp [countPageFaultsLfuLoop, runLfu]
  | cons p rest ih =>
    intro t pool ts f
    by_cases hv : (getPTE t p).is_valid = false
    · cases pool with
      | cons frame poolRest =>
        have hs : (processPageAccessLfu t p (frame :: poolRest) ts).2 =
            (t.set p ⟨true, frame, ts, ts, 1⟩, poolRest) := by
          simp only [processPageAccessLfu, hv, Bool.false_eq_true, if_false]
        simp only [countPageFaultsLfuLoop]
        rw [if_pos hv, ih]
        simp only [runLfu, hs, hv, Bool.false_eq_true, if_false]
        omega
      | nil =>
        by_cases hr : (findVictimLfu t).2.2 = -1
        · have hs : (processPageAccessLfu t p [] ts).2 = (t, []) := by
            simp only [processPageAccessLfu, hv, Bool.false_eq_true, if_false]
            rw [if_pos hr]
          simp only [countPageFaultsLfuLoop]
          rw [if_pos hv, if_pos hr, ih]
          simp only [runLfu, hs, hv, Bool.false_eq_true, if_false]
          omega
        · have hs : (processPageAccessLfu t p [] ts).2 =
              ((t.set (findVictimLfu t).2.2.toNat ⟨false, -1, -1, -1, -1⟩).set p
                ⟨true, (getPTE t (findVictimLfu t).2.2.toNat).frame_number, ts, ts, 1⟩, []) := by
            simp only [processPageAccessLfu, hv, Bool.false_eq_true, if_false]
            rw [if_neg hr]
          simp only [countPageFaultsLfuLoop]
          rw [if_pos hv, if_neg hr, ih]
          simp only [runLfu, hs, hv, Bool.false_eq_true, if_false]
          omega
    · have hvt : (getPTE t p).is_valid = true := by
        cases hb : (getPTE t p).is_valid
        · exact absurd hb hv
        · rfl
      have hs : (processPageAccessLfu t p pool ts).2 =
          (t.set p ⟨(getPTE t p).is_valid, (getPTE t p).frame_number,
            (getPTE t p).arrival_timestamp, ts, (getPTE t p).reference_count + 1⟩, pool) := by
        simp only [processPageAccessLfu, hvt, if_true]
      simp only [countPageFaultsLfuLoop]
      rw [if_neg hv, ih]
      simp only [runLfu, hs, hvt, if_true]
      omega

/-- Claim C10: each count function computes only the fault count of the
simulated run: the caller-visible page table and frame pool after the call
are exactly the inputs (the C code copies both into locals and never
writes through the caller pointers), and the returned fault count equals
the number of faulting accesses of the run obtained by folding the
corresponding single-access transition over the reference string with the
clock starting at 1. -/
theorem count_functions_pure (t : List PTE) (refs : List Nat) (pool : List Int) :
    (countPageFaultsFifo t refs pool).2 = (t, pool) ∧
    (countPageFaultsLru t refs pool).2 = (t, pool) ∧
    (countPageFaultsLfu t refs pool).2 = (t, pool) ∧
    (countPageFaultsFifo t refs pool).1 = (runFifo t pool refs 1).1 ∧
    (countPageFaultsLru t refs pool).1 = (runLru t pool refs 1).1 ∧
    (countPageFaultsLfu t refs pool).1 = (runLfu t pool refs 1).1 := by
  refine ⟨rfl, rfl, rfl, ?_, ?_, ?_⟩
  · have h := loop_run_fifo refs t pool 1 0
    show (countPageFaultsFifoLoop t pool refs 1 0).1 = (runFifo t pool refs 1).1
    omega
  · have h := loop_run_lru refs t pool 1 0
    show (countPageFaultsLruLoop t pool refs 1 0).1 = (runLru t pool refs 1).1
    omega
  · have h := loop_run_lfu refs t pool 1 0
    show (countPageFaultsLfuLoop t pool refs 1 0).1 = (runLfu t pool refs 1).1
    omega
